import Mathlib

/-!
meli-search: the dedup-state engine of `m.go`.

A shallow embedding of `src/m.go`.

* Go maps (`map[string]result`, `map[string]string`, `map[string]*Query`) are
  finite maps `Finmap`: unordered, one value per key.  A `range` over a map is
  modelled by an explicit enumeration of its entries, in any order.
* The body of every `Lock()`/`Unlock()` (or `RLock()`/`RUnlock()`) pair is one
  atomic transition on the `Query` it locks.
* Go `int` is a 64-bit two's-complement integer: `Int` with `wrapInt` applied
  after every addition.
* `float64` prices are only ever copied, never computed with; a price is
  carried as its IEEE-754 bit pattern.
-/

namespace MeliSearch

/-! ## Data model (m.go, lines 23-51) -/

/-- A Go `map[string]V`. -/
abbrev GoMap (V : Type) := Finmap (fun _ : String => V)

/-- One search hit (`type result struct`). -/
structure result where
  Id : String
  Permalink : String
  Thumbnail : String
  Title : String
  Price : Nat
  deriving DecidableEq

/-- The paging block of a page (`type paging struct`). -/
structure paging where
  Total : Int
  Offset : Int
  Limit : Int
  deriving DecidableEq

/-- A decoded page (`type ApiResponse struct`). -/
structure ApiResponse where
  Query : String
  Paging : paging
  Results : List result
  deriving DecidableEq

/-- One named search with its partition (`type Query struct`); the embedded
`sync.RWMutex` is represented by the atomicity of the transitions below. -/
structure Query where
  Endpoint : String
  Params : GoMap String
  Available : GoMap result
  Visited : GoMap result
  deriving DecidableEq

/-- The global `queries map[string]*Query`; a key that is absent reads as the
nil pointer, `none`. -/
abbrev Registry := GoMap Query

/-! ## strings.Replace (Go standard library), for a non-empty `old` and `n = -1` -/

/-- Scan left to right; `skip` counts the characters of a matched occurrence of
`old` that are still to be dropped.  Matches are leftmost and do not overlap. -/
def replaceChars (old new : List Char) : Nat → List Char → List Char
  | _, [] => []
  | skip + 1, _ :: cs => replaceChars old new skip cs
  | 0, c :: cs =>
    if old.isPrefixOf (c :: cs) then new ++ replaceChars old new (old.length - 1) cs
    else c :: replaceChars old new 0 cs

/-- Replace every non-overlapping occurrence of `old` (non-empty) by `new`:
`strings.Replace(s, old, new, -1)`. -/
def stringsReplace (s old new : String) : String :=
  String.mk (replaceChars old.data new.data 0 s.data)

/-! ## updateQuery: the merge under `q.Lock()` (m.go, lines 133-149) -/

/-- One iteration of `for _, v := range rs` (lines 135-146). -/
def mergeStep (visited : GoMap result) (newResults : GoMap result) (v : result) :
    GoMap result :=
  if v.Id ∈ visited then newResults
  else
    let v := { v with Thumbnail := stringsReplace v.Thumbnail "-I.jpg" "-U.jpg" }
    newResults.insert v.Id v

/-- The locked part of `updateQuery`: build `newResults` from the fetched
results and assign it to `q.Available`. -/
def updateQueryMerge (q : Query) (rs : List result) : Query :=
  let newResults := rs.foldl (mergeStep q.Visited) ∅
  { q with Available := newResults }

/-! ## The mark-visited critical sections (m.go, lines 219-224 and 243-251) -/

/-- The locked body of the `/visited` handler (lines 219-224). -/
def markVisited (q : Query) (id : String) : Query :=
  match q.Available.lookup id with
  | none => q
  | some v => { q with Visited := q.Visited.insert id v, Available := q.Available.erase id }

/-- The locked loop of the `/visitedAll` handler (lines 243-251): the loop body
is written out as in the source, with `continue` for a missing id. -/
def markVisitedAll (q : Query) : List String → Query
  | [] => q
  | id :: ids =>
    match q.Available.lookup id with
    | none => markVisitedAll q ids
    | some v =>
      markVisitedAll
        { q with Visited := q.Visited.insert id v, Available := q.Available.erase id } ids

/-- The mutating operations on one query state. -/
inductive Op where
  | refresh (fetched : List result)
  | mark (id : String)
  | markAll (ids : List String)

/-- Apply one mutating operation. -/
def Op.apply (q : Query) : Op → Query
  | .refresh fetched => updateQueryMerge q fetched
  | .mark id => markVisited q id
  | .markAll ids => markVisitedAll q ids

/-- Apply a sequence of operations, left to right (within one query all
mutations are mutually exclusive, so every history is such a sequence). -/
def runOps (q : Query) (ops : List Op) : Query :=
  ops.foldl Op.apply q

/-- No id is a key of both `Available` and `Visited`. -/
def Partitioned (q : Query) : Prop :=
  ∀ id : String, ¬ (id ∈ q.Available ∧ id ∈ q.Visited)

/-! ## The HTTP handlers (m.go, lines 204-276)

A handler receives the registry and the query parameters of the request.
`r.URL.Query().Get(k)` is the first value of `k`, or `""` when the request has
no such parameter; `r.URL.Query()["id"]` is `none` when the request has no
`id` parameter.  `queries[endpoint]` on an unregistered endpoint is the nil
pointer, and calling `Lock`/`RLock` through it dereferences it. -/

/-- What a handler has written to the `http.ResponseWriter`. -/
inductive Reply where
  | empty
  | text (body : String)
  | redirect (location : String)
  | page (q : Query)
  deriving DecidableEq

/-- How a handler call ends: it returns, or it panics on a nil pointer
dereference.  Both carry the registry as the call leaves it. -/
inductive Outcome where
  | returned (queries : Registry) (reply : Reply)
  | nilDeref (queries : Registry)
  deriving DecidableEq

/-- The registry a handler call leaves behind. -/
def Outcome.registry : Outcome → Registry
  | .returned queries _ => queries
  | .nilDeref queries => queries

/-- The `/visited` handler (lines 204-225). -/
def visitedHandler (queries : Registry) (id endpoint : String) : Outcome :=
  if id = "" ∨ endpoint = "" then .returned queries .empty
  else
    match queries.lookup endpoint with
    | none => .nilDeref queries
    | some q => .returned (queries.insert endpoint (markVisited q id)) (.text id)

/-- The `/visitedAll` handler (lines 226-252). -/
def visitedAllHandler (queries : Registry) (endpoint : String)
    (ids : Option (List String)) : Outcome :=
  if endpoint = "" then .returned queries .empty
  else
    match ids with
    | none => .returned queries (.redirect ("/listing?endpoint=" ++ endpoint))
    | some ids =>
      match queries.lookup endpoint with
      | none => .nilDeref queries
      | some q =>
        .returned (queries.insert endpoint (markVisitedAll q ids))
          (.redirect ("/listing?endpoint=" ++ endpoint))

/-- The copy loop of `/listing` (lines 264-271) over the entries of the source
map in the order the runtime yields them; `i` is the loop counter. -/
def listingLoop : List (String × result) → Nat → GoMap result → GoMap result
  | [], _, acc => acc
  | (k, v) :: rest, i, acc =>
    let acc := acc.insert k v
    let i := i + 1
    if i > 100 then acc else listingLoop rest i acc

/-- The `/listing` handler (lines 253-276).  `order` is the order in which
`range` yields the entries of a map. -/
def listingHandler (order : GoMap result → List (String × result))
    (queries : Registry) (endpoint : String) : Outcome :=
  if endpoint = "" then .returned queries .empty
  else
    match queries.lookup endpoint with
    | none => .nilDeref queries
    | some src =>
      let q : Query :=
        { Endpoint := endpoint, Params := ∅,
          Available := listingLoop (order src.Available) 0 ∅, Visited := ∅ }
      .returned queries (.page q)

/-- The list `l` is one of the orders in which `range` can yield the entries
of `m`: every entry exactly once. -/
def Enumerates (l : List (String × result)) (m : GoMap result) : Prop :=
  (l.map Prod.fst).Nodup ∧ ∀ k v, (k, v) ∈ l ↔ m.lookup k = some v

/-- Deciding `Partitioned` through the key-disjointness of the two maps. -/
instance (q : Query) : Decidable (Partitioned q) :=
  decidable_of_iff (Finmap.Disjoint q.Available q.Visited)
    ⟨fun h id hid => h id hid.1 hid.2, fun h id hA hV => h id ⟨hA, hV⟩⟩

/-! ## Sample data -/

/-- Sample result `A`. -/
def rA : result := ⟨"A", "https://articulo/A", "http://img/A-I.jpg", "Kona Unit", 100⟩

/-- Sample result `B`. -/
def rB : result := ⟨"B", "https://articulo/B", "http://img/B-I.jpg", "Kona Honzo", 200⟩

/-- Sample result `C`. -/
def rC : result := ⟨"C", "https://articulo/C", "http://img/C.png", "Kona Process", 300⟩

/-- Sample result `Z`. -/
def rZ : result := ⟨"Z", "https://articulo/Z", "http://img/Z-U.jpg", "Kona Sutra", 400⟩

/-- A query in which `A` is visited and `B`, `Z` are available. -/
def sampleQuery : Query :=
  { Endpoint := "kona"
    Params := (∅ : GoMap String).insert "q" "kona"
    Available := ((∅ : GoMap result).insert "Z" rZ).insert "B" rB
    Visited := (∅ : GoMap result).insert "A" rA }

/-- A registry holding `sampleQuery` under its endpoint. -/
def sampleRegistry : Registry := (∅ : Registry).insert "kona" sampleQuery

/-- A result whose id is the empty string, as the decoder leaves it when the
API sends a result without an id. -/
def rBlank : result := ⟨"", "https://articulo/blank", "http://img/blank.png", "Kona", 500⟩

/-- A query in which the result with the empty id is available (line 145 stores
a fetched result under whatever id it carries). -/
def blankIdQuery : Query :=
  { Endpoint := "kona"
    Params := (∅ : GoMap String).insert "q" "kona"
    Available := (∅ : GoMap result).insert "" rBlank
    Visited := ∅ }

/-- A registry holding `blankIdQuery`. -/
def blankIdRegistry : Registry := (∅ : Registry).insert "kona" blankIdQuery

/-- A registry holding `sampleQuery` under the empty endpoint name. -/
def blankEndpointRegistry : Registry := (∅ : Registry).insert "" sampleQuery

/-! ## meliSearch (m.go, lines 55-125)

The remote API is a state machine `Remote σ`: one `http.Get` maps the server
state and the query of the request URL to the outcome of the call and the next
server state.  Every loop iteration consumes one unit of fuel; the effects of a
run are recorded in a log of events. -/

/-- Go `int` arithmetic: the 64-bit two's-complement value of an integer. -/
def wrapInt (x : Int) : Int := (x + 2 ^ 63) % 2 ^ 64 - 2 ^ 63

/-- Go `a + b` on `int`. -/
def addInt (a b : Int) : Int := wrapInt (a + b)

/-- The `url.Values` of the request.  `meliSearch` writes it only through
`Set`, so every key holds one value; `query.Set(k, v)` is `query.insert k v`. -/
abbrev Values := GoMap String

/-- The text `fmt.Sprintf("%d", n)`: decimal digits, with a leading minus sign
for a negative number. -/
def fmtInt : Int → String
  | .ofNat m => String.mk (Nat.toDigits 10 m)
  | .negSucc m => String.mk ('-' :: Nat.toDigits 10 (m + 1))

/-- The outcome of one `http.Get`: a transport error (`err != nil`), or a
response with its status code and the value that `decoder.Decode` leaves in a
fresh `ApiResponse` when it reads the body. -/
inductive HttpResult where
  | transportError
  | response (StatusCode : Int) (decoded : ApiResponse)
  deriving DecidableEq

/-- A remote API as seen through `http.Get`. -/
structure Remote (σ : Type) where
  get : σ → Values → HttpResult × σ

/-- The observable effects of `meliSearch`. -/
inductive Event where
  | get (query : Values)
  | sleepRetry
  | sleepPage
  deriving DecidableEq

/-- The first-page loop (lines 73-93): repeat the request, sleeping 5 seconds
after a transport error or a status code of 300 or more, until it succeeds;
then decode the body. -/
def firstPage {σ : Type} (remote : Remote σ) (query : Values) :
    Nat → σ → List Event → Option (ApiResponse × σ × List Event)
  | 0, _, _ => none
  | fuel + 1, s, log =>
    match remote.get s query with
    | (.transportError, s') =>
      firstPage remote query fuel s' (log ++ [.get query, .sleepRetry])
    | (.response code decoded, s') =>
      if code ≥ 300 then firstPage remote query fuel s' (log ++ [.get query, .sleepRetry])
      else some (decoded, s', log ++ [.get query])

/-- The later-page loop (lines 97-122).  A failed request `continue`s: the
loop condition is evaluated again on the unchanged `searchResp`. -/
def laterPages {σ : Type} (remote : Remote σ) :
    Nat → σ → Values → ApiResponse → List result → List Event →
      Option (List result × σ × List Event)
  | 0, _, _, _, _, _ => none
  | fuel + 1, s, query, searchResp, rs, log =>
    if addInt searchResp.Paging.Offset searchResp.Paging.Limit < searchResp.Paging.Total then
      let query :=
        query.insert "offset"
          (fmtInt (addInt searchResp.Paging.Offset searchResp.Paging.Limit))
      match remote.get s query with
      | (.transportError, s') =>
        laterPages remote fuel s' query searchResp rs
          (log ++ [.sleepPage, .get query, .sleepRetry])
      | (.response code decoded, s') =>
        if code ≥ 300 then
          laterPages remote fuel s' query searchResp rs
            (log ++ [.sleepPage, .get query, .sleepRetry])
        else
          laterPages remote fuel s' query decoded (rs ++ decoded.Results)
            (log ++ [.sleepPage, .get query])
    else some (rs, s, log)

/-- What a finished call of `meliSearch` leaves: the returned pair `(rs, err)`,
the server state and the log of effects. -/
structure Fetched (σ : Type) where
  rs : List result
  err : Option String
  server : σ
  log : List Event
  deriving DecidableEq

/-- The function `meliSearch`.  `url.Parse` succeeds on the constant hostname,
whose URL has no query, so `query` starts as `params` (one `Set` per entry of
`params` on the empty `Values`); the only `return` reached is `rs, nil`.
`none` means the fuel ran out. -/
def meliSearch {σ : Type} (remote : Remote σ) (fuel : Nat) (s : σ)
    (params : GoMap String) : Option (Fetched σ) :=
  let query : Values := params.insert "limit" "1000"
  match firstPage remote query fuel s [] with
  | none => none
  | some (searchResp, s, log) =>
    match laterPages remote fuel s query searchResp searchResp.Results log with
    | none => none
    | some (rs, s, log) => some { rs := rs, err := none, server := s, log := log }

/-- The requests of a log, in order. -/
def requestsOf : List Event → List Values
  | [] => []
  | .get query :: rest => query :: requestsOf rest
  | _ :: rest => requestsOf rest

/-- The number of 5-second retry delays in a log. -/
def retryDelays (log : List Event) : Nat := log.count .sleepRetry

/-! ## Simulated remote APIs -/

/-- Read a decimal number. -/
def parseNat (s : String) : Nat :=
  s.data.foldl (fun acc c => 10 * acc + (c.toNat - 48)) 0

/-- The offset a request asks for: its `offset` parameter, 0 when it has
none. -/
def requestOffset (query : Values) : Nat :=
  match query.lookup "offset" with
  | none => 0
  | some s => parseNat s

/-- The page a server holding `all` answers to a request, with page size
`limit`: paging {total, offset, limit} and the results at positions
`offset .. min (offset + limit, total) - 1`. -/
def pagedRespond (all : List result) (limit : Nat) (query : Values) : ApiResponse :=
  { Query := ""
    Paging := { Total := all.length, Offset := requestOffset query, Limit := limit }
    Results := (all.drop (requestOffset query)).take limit }

/-- A failure-free server: every request is answered with status 200. -/
def failureFree (respond : Values → ApiResponse) : Remote Unit :=
  { get := fun s query => (.response 200 (respond query), s) }

/-- A failed `http.Get`, as `meliSearch` tests it: a transport error or a
status code of 300 or more. -/
def HttpResult.isFailure : HttpResult → Bool
  | .transportError => true
  | .response code _ => decide (code ≥ 300)

/-- A server that answers the requests selected by `target` with the pending
failures, one per request, and every other request like the failure-free
server.  The state is the list of failures still pending. -/
def flaky (respond : Values → ApiResponse) (target : Values → Bool) :
    Remote (List HttpResult) :=
  { get := fun pending query =>
      match pending with
      | failure :: rest =>
        if target query then (failure, rest) else (.response 200 (respond query), pending)
      | [] => (.response 200 (respond query), []) }

/-- The number of pages of `total` results at `limit` per page, at least one. -/
def numPages (total limit : Nat) : Nat := max 1 ((total + limit - 1) / limit)

/-- The log of the later-page loop against a failure-free paged server, from
a response at offset `o` on: `m` further pages, each preceded by the half-second
delay. -/
def laterLog (query : Values) (limit : Nat) : Nat → Nat → List Event
  | _, 0 => []
  | o, m + 1 =>
    .sleepPage :: .get (query.insert "offset" (fmtInt ((o + limit : Nat) : Int))) ::
      laterLog query limit (o + limit) m

/-- Five sample results, for a server with more than one page. -/
def fiveResults : List result := [rA, rB, rC, rZ, rA]

/-- Search parameters that carry an offset of their own. -/
def offsetParams : GoMap String :=
  ((∅ : GoMap String).insert "q" "kona").insert "offset" "2"

/-- A list of `n` results with distinct ids. -/
def manyResults (n : Nat) : List result :=
  (List.range n).map (fun i =>
    { Id := "MLA" ++ toString i, Permalink := "", Thumbnail := "", Title := "", Price := i })

/-- The log of `k` failed attempts at the first page: request, 5-second
delay. -/
def firstRetries (query : Values) : Nat → List Event
  | 0 => []
  | k + 1 => .get query :: .sleepRetry :: firstRetries query k

/-- The log of `k` failed attempts at a later page: half-second delay,
request, 5-second delay. -/
def laterRetries (query : Values) : Nat → List Event
  | 0 => []
  | k + 1 => .sleepPage :: .get query :: .sleepRetry :: laterRetries query k

/-- The first request selected by `target` is issued `k` more times. -/
def repeatFirst (target : Values → Bool) (k : Nat) : List Values → List Values
  | [] => []
  | query :: rest =>
    if target query then List.replicate (k + 1) query ++ rest
    else query :: repeatFirst target k rest

/-- Two failed answers: a transport error, then status 503. -/
def twoFailures : List HttpResult :=
  [.transportError,
   .response 503 { Query := "", Paging := { Total := 0, Offset := 0, Limit := 0 }, Results := [] }]

/-- Select the requests for the page at offset `o`. -/
def atOffset (o : Nat) (query : Values) : Bool := requestOffset query == o

/-- The entries `id ↦ result` of a list of results. -/
def entriesOf (rs : List result) : List (String × result) := rs.map (fun r => (r.Id, r))

/-- The map built by inserting the entries one by one. -/
def toMap (l : List (String × result)) : GoMap result :=
  l.foldl (fun m e => m.insert e.1 e.2) ∅

/-- A query with 101 available results. -/
def bigQuery : Query :=
  { Endpoint := "kona", Params := ∅,
    Available := toMap (entriesOf (manyResults 101)), Visited := ∅ }

/-- A registry holding `bigQuery`. -/
def bigRegistry : Registry := (∅ : Registry).insert "kona" bigQuery

/-! # Properties -/

/-! ## Lemmas on the refresh merge -/

theorem lookup_mergeStep (V acc : GoMap result) (v : result) (id : String) :
    (mergeStep V acc v).lookup id =
      if v.Id = id ∧ v.Id ∉ V then
        some { v with Thumbnail := stringsReplace v.Thumbnail "-I.jpg" "-U.jpg" }
      else acc.lookup id := by
  unfold mergeStep
  by_cases hV : v.Id ∈ V
  · simp [hV]
  · by_cases hid : v.Id = id
    · subst hid
      simp [hV, Finmap.lookup_insert]
    · have hne : id ≠ v.Id := fun h => hid h.symm
      simp [hV, hid, Finmap.lookup_insert_of_ne _ hne]

theorem lookup_foldl_mergeStep (V : GoMap result) (rs : List result) (id : String) :
    (rs.foldl (mergeStep V) ∅).lookup id =
      if id ∈ V then none
      else ((rs.filter (fun r => r.Id = id)).getLast?).map
        (fun r => { r with Thumbnail := stringsReplace r.Thumbnail "-I.jpg" "-U.jpg" }) := by
  induction rs using List.reverseRecOn with
  | nil => simp
  | append_singleton rs v ih =>
    rw [List.foldl_append, List.foldl_cons, List.foldl_nil, lookup_mergeStep, ih]
    by_cases hid : v.Id = id
    · subst hid
      by_cases hV : v.Id ∈ V
      · simp [hV]
      · simp [hV, List.filter_append, List.getLast?_append]
    · simp [hid, List.filter_append]

theorem mem_updateQueryMerge (q : Query) (rs : List result) (id : String) :
    id ∈ (updateQueryMerge q rs).Available ↔ id ∉ q.Visited ∧ ∃ r ∈ rs, r.Id = id := by
  rw [← Finmap.lookup_isSome]
  show ((rs.foldl (mergeStep q.Visited) ∅).lookup id).isSome ↔ _
  rw [lookup_foldl_mergeStep]
  by_cases hV : id ∈ q.Visited
  · simp [hV]
  · simp only [hV, if_false, not_false_eq_true, true_and, Option.isSome_map']
    constructor
    · intro h
      obtain ⟨r, hr⟩ := Option.isSome_iff_exists.mp h
      have hmem := List.mem_of_getLast?_eq_some hr
      rw [List.mem_filter] at hmem
      exact ⟨r, hmem.1, by simpa using hmem.2⟩
    · rintro ⟨r, hr, hid⟩
      have hne : rs.filter (fun r => r.Id = id) ≠ [] := by
        apply List.ne_nil_of_mem (a := r)
        rw [List.mem_filter]
        exact ⟨hr, by simpa using hid⟩
      cases h : (rs.filter (fun r => r.Id = id)).getLast? with
      | none => exact absurd (List.getLast?_eq_none_iff.mp h) hne
      | some x => rfl

theorem partitioned_updateQueryMerge (q : Query) (rs : List result) :
    Partitioned (updateQueryMerge q rs) := by
  intro id h
  have h1 := (mem_updateQueryMerge q rs id).mp h.1
  exact h1.1 h.2

/-! ## Lemmas on marking -/

theorem markVisited_of_not_mem (q : Query) (id : String) (h : id ∉ q.Available) :
    markVisited q id = q := by
  unfold markVisited
  rw [Finmap.lookup_eq_none.mpr h]

theorem markVisited_of_lookup (q : Query) (id : String) (v : result)
    (h : q.Available.lookup id = some v) :
    markVisited q id =
      { q with Visited := q.Visited.insert id v, Available := q.Available.erase id } := by
  unfold markVisited
  rw [h]

theorem partitioned_markVisited (q : Query) (id : String) (hq : Partitioned q) :
    Partitioned (markVisited q id) := by
  cases h : q.Available.lookup id with
  | none => rw [markVisited_of_not_mem q id (Finmap.lookup_eq_none.mp h)]; exact hq
  | some v =>
    rw [markVisited_of_lookup q id v h]
    intro k hk
    simp only [Finmap.mem_erase, Finmap.mem_insert] at hk
    rcases hk with ⟨⟨hne, hA⟩, hV⟩
    rcases hV with hV | hV
    · exact hne hV
    · exact hq k ⟨hA, hV⟩

theorem markVisitedAll_eq_foldl (q : Query) (ids : List String) :
    markVisitedAll q ids = ids.foldl markVisited q := by
  induction ids generalizing q with
  | nil => rfl
  | cons id ids ih =>
    rw [List.foldl_cons]
    unfold markVisitedAll
    cases h : q.Available.lookup id with
    | none =>
      rw [markVisited_of_not_mem q id (Finmap.lookup_eq_none.mp h)]
      exact ih q
    | some v =>
      rw [markVisited_of_lookup q id v h]
      exact ih _

theorem partitioned_foldl_markVisited (ids : List String) (q : Query) (hq : Partitioned q) :
    Partitioned (ids.foldl markVisited q) := by
  induction ids generalizing q with
  | nil => exact hq
  | cons id ids ih => exact ih _ (partitioned_markVisited q id hq)

theorem partitioned_apply (q : Query) (op : Op) (hq : Partitioned q) :
    Partitioned (op.apply q) := by
  cases op with
  | refresh fetched => exact partitioned_updateQueryMerge q fetched
  | mark id => exact partitioned_markVisited q id hq
  | markAll ids =>
    show Partitioned (markVisitedAll q ids)
    rw [markVisitedAll_eq_foldl]
    exact partitioned_foldl_markVisited ids q hq

theorem partitioned_runOps (ops : List Op) (q : Query) (hq : Partitioned q) :
    Partitioned (runOps q ops) := by
  unfold runOps
  induction ops generalizing q with
  | nil => exact hq
  | cons op ops ih => exact ih _ (partitioned_apply q op hq)

theorem mem_visited_markVisited (q : Query) (id k : String) (hk : k ∈ q.Visited) :
    k ∈ (markVisited q id).Visited := by
  cases h : q.Available.lookup id with
  | none => rw [markVisited_of_not_mem q id (Finmap.lookup_eq_none.mp h)]; exact hk
  | some v =>
    rw [markVisited_of_lookup q id v h]
    exact Finmap.mem_insert.mpr (Or.inr hk)

theorem mem_available_markVisited (q : Query) (id k : String)
    (hk : k ∈ (markVisited q id).Available) : k ∈ q.Available := by
  cases h : q.Available.lookup id with
  | none => rw [markVisited_of_not_mem q id (Finmap.lookup_eq_none.mp h)] at hk; exact hk
  | some v =>
    rw [markVisited_of_lookup q id v h] at hk
    exact (Finmap.mem_erase.mp hk).2

theorem not_mem_available_markVisited (q : Query) (id : String) :
    id ∉ (markVisited q id).Available := by
  cases h : q.Available.lookup id with
  | none =>
    rw [markVisited_of_not_mem q id (Finmap.lookup_eq_none.mp h)]
    exact Finmap.lookup_eq_none.mp h
  | some v =>
    rw [markVisited_of_lookup q id v h]
    exact Finmap.not_mem_erase_self

theorem lookup_visited_markVisited (q : Query) (id k : String) (v : result)
    (hq : Partitioned q) (hk : q.Visited.lookup k = some v) :
    (markVisited q id).Visited.lookup k = some v := by
  cases h : q.Available.lookup id with
  | none => rw [markVisited_of_not_mem q id (Finmap.lookup_eq_none.mp h)]; exact hk
  | some w =>
    rw [markVisited_of_lookup q id w h]
    have hne : k ≠ id := by
      intro heq
      subst heq
      exact hq k ⟨Finmap.mem_of_lookup_eq_some h, Finmap.mem_of_lookup_eq_some hk⟩
    show (q.Visited.insert id w).lookup k = some v
    rw [Finmap.lookup_insert_of_ne _ hne]
    exact hk

theorem mem_visited_foldl_markVisited (ids : List String) (q : Query) (k : String)
    (hk : k ∈ q.Visited) : k ∈ (ids.foldl markVisited q).Visited := by
  induction ids generalizing q with
  | nil => exact hk
  | cons id ids ih => exact ih _ (mem_visited_markVisited q id k hk)

theorem mem_available_foldl_markVisited (ids : List String) (q : Query) (k : String)
    (hk : k ∈ (ids.foldl markVisited q).Available) : k ∈ q.Available := by
  induction ids generalizing q with
  | nil => exact hk
  | cons id ids ih => exact mem_available_markVisited q id k (ih _ hk)

theorem lookup_visited_foldl_markVisited (ids : List String) (q : Query) (k : String)
    (v : result) (hq : Partitioned q) (hk : q.Visited.lookup k = some v) :
    (ids.foldl markVisited q).Visited.lookup k = some v := by
  induction ids generalizing q with
  | nil => exact hk
  | cons id ids ih =>
    exact ih _ (partitioned_markVisited q id hq) (lookup_visited_markVisited q id k v hq hk)

theorem mem_visited_apply (q : Query) (op : Op) (k : String) (hk : k ∈ q.Visited) :
    k ∈ (op.apply q).Visited := by
  cases op with
  | refresh fetched => exact hk
  | mark id => exact mem_visited_markVisited q id k hk
  | markAll ids =>
    show k ∈ (markVisitedAll q ids).Visited
    rw [markVisitedAll_eq_foldl]
    exact mem_visited_foldl_markVisited ids q k hk

theorem lookup_visited_apply (q : Query) (op : Op) (k : String) (v : result)
    (hq : Partitioned q) (hk : q.Visited.lookup k = some v) :
    (op.apply q).Visited.lookup k = some v := by
  cases op with
  | refresh fetched => exact hk
  | mark id => exact lookup_visited_markVisited q id k v hq hk
  | markAll ids =>
    show (markVisitedAll q ids).Visited.lookup k = some v
    rw [markVisitedAll_eq_foldl]
    exact lookup_visited_foldl_markVisited ids q k v hq hk

theorem lookup_visited_runOps (ops : List Op) (q : Query) (k : String) (v : result)
    (hq : Partitioned q) (hk : q.Visited.lookup k = some v) :
    (runOps q ops).Visited.lookup k = some v := by
  unfold runOps
  induction ops generalizing q with
  | nil => exact hk
  | cons op ops ih =>
    exact ih _ (partitioned_apply q op hq) (lookup_visited_apply q op k v hq hk)

theorem marked_foldl_markVisited (ids : List String) (q : Query) (id : String)
    (hid : id ∈ ids) (hA : id ∈ q.Available) :
    id ∈ (ids.foldl markVisited q).Visited ∧ id ∉ (ids.foldl markVisited q).Available := by
  induction ids generalizing q with
  | nil => cases hid
  | cons x xs ih =>
    rw [List.foldl_cons]
    by_cases hx : id = x
    · subst hx
      obtain ⟨v, hv⟩ := Finmap.mem_iff.mp hA
      constructor
      · apply mem_visited_foldl_markVisited
        rw [markVisited_of_lookup q id v hv]
        exact Finmap.mem_insert.mpr (Or.inl rfl)
      · intro h
        exact not_mem_available_markVisited q id (mem_available_foldl_markVisited xs _ id h)
    · have hxs : id ∈ xs := by
        rcases List.mem_cons.mp hid with h | h
        · exact absurd h hx
        · exact h
      apply ih _ hxs
      cases h : q.Available.lookup x with
      | none => rw [markVisited_of_not_mem q x (Finmap.lookup_eq_none.mp h)]; exact hA
      | some w =>
        rw [markVisited_of_lookup q x w h]
        exact Finmap.mem_erase.mpr ⟨hx, hA⟩

/-! ## Lemmas on the handlers -/

theorem insert_of_lookup {V : Type} (m : GoMap V) (k : String) (v : V)
    (h : m.lookup k = some v) : m.insert k v = m := by
  apply Finmap.ext_lookup
  intro x
  by_cases hx : x = k
  · subst hx
    rw [Finmap.lookup_insert, h]
  · rw [Finmap.lookup_insert_of_ne _ hx]

theorem visitedHandler_registered (queries : Registry) (id endpoint : String) (q : Query)
    (hid : id ≠ "") (he : endpoint ≠ "") (hq : queries.lookup endpoint = some q) :
    visitedHandler queries id endpoint =
      .returned (queries.insert endpoint (markVisited q id)) (.text id) := by
  unfold visitedHandler
  simp [hid, he, hq]

theorem visitedAllHandler_registered (queries : Registry) (endpoint : String)
    (ids : List String) (q : Query) (he : endpoint ≠ "")
    (hq : queries.lookup endpoint = some q) :
    visitedAllHandler queries endpoint (some ids) =
      .returned (queries.insert endpoint (markVisitedAll q ids))
        (.redirect ("/listing?endpoint=" ++ endpoint)) := by
  unfold visitedAllHandler
  simp [he, hq]

theorem markVisited_idem (q : Query) (id : String) :
    markVisited (markVisited q id) id = markVisited q id :=
  markVisited_of_not_mem _ id (not_mem_available_markVisited q id)

theorem visitedHandler_lookup (queries : Registry) (id endpoint : String) (q : Query)
    (hq : queries.lookup endpoint = some q) :
    (visitedHandler queries id endpoint).registry.lookup endpoint =
      some (if id = "" ∨ endpoint = "" then q else markVisited q id) := by
  unfold visitedHandler
  by_cases h : id = "" ∨ endpoint = ""
  · simp [h, Outcome.registry, hq]
  · simp only [h, if_false, hq, Outcome.registry]
    exact Finmap.lookup_insert _

theorem visitedHandler_blank_id (queries : Registry) (endpoint : String) :
    visitedHandler queries "" endpoint = .returned queries .empty := by
  unfold visitedHandler
  simp

theorem visitedHandler_blank_endpoint (queries : Registry) (id : String) :
    visitedHandler queries id "" = .returned queries .empty := by
  unfold visitedHandler
  simp

theorem visitedHandler_unregistered (queries : Registry) (id endpoint : String)
    (hq : queries.lookup endpoint = none) :
    (visitedHandler queries id endpoint).registry = queries := by
  unfold visitedHandler
  by_cases hg : id = "" ∨ endpoint = ""
  · rw [if_pos hg]; rfl
  · rw [if_neg hg, hq]; rfl

theorem foldl_visitedHandler_unchanged (ids : List String) (queries : Registry)
    (endpoint : String) (h : endpoint = "" ∨ queries.lookup endpoint = none) :
    ids.foldl (fun reg id => (visitedHandler reg id endpoint).registry) queries = queries := by
  induction ids with
  | nil => rfl
  | cons id ids ih =>
    rw [List.foldl_cons]
    have hstep : (visitedHandler queries id endpoint).registry = queries := by
      rcases h with h | h
      · subst h
        rw [visitedHandler_blank_endpoint]
        rfl
      · exact visitedHandler_unregistered queries id endpoint h
    rw [hstep]
    exact ih

theorem foldl_visitedHandler (ids : List String) (queries : Registry) (endpoint : String)
    (q : Query) (he : endpoint ≠ "") (hq : queries.lookup endpoint = some q)
    (hids : "" ∈ ids → "" ∉ q.Available) :
    ids.foldl (fun reg id => (visitedHandler reg id endpoint).registry) queries =
      queries.insert endpoint (ids.foldl markVisited q) := by
  induction ids generalizing queries q with
  | nil => exact (insert_of_lookup queries endpoint q hq).symm
  | cons id ids ih =>
    rw [List.foldl_cons, List.foldl_cons]
    by_cases hid : id = ""
    · subst hid
      have hnot : "" ∉ q.Available := hids (List.mem_cons_self _ _)
      rw [visitedHandler_blank_id, markVisited_of_not_mem q "" hnot]
      exact ih queries q hq (fun _ => hnot)
    · rw [visitedHandler_registered queries id endpoint q hid he hq]
      show ids.foldl _ (queries.insert endpoint (markVisited q id)) = _
      rw [ih (queries.insert endpoint (markVisited q id)) (markVisited q id)
        (Finmap.lookup_insert _)
        (fun hmem hA => hids (List.mem_cons_of_mem _ hmem)
          (mem_available_markVisited q id "" hA)),
        Finmap.insert_insert]

/-! ## The claims on the query state -/

/-- C1 (partition invariant): from a state whose Available and Visited share no
id, the refresh merge for any fetched sequence, the single mark for any id and
the batch mark for any id list each lead to a state that again shares no id;
so does every finite sequence of these operations, and so does the query a
`/visited` or `/visitedAll` call leaves in the registry. -/
theorem partition_invariant (q : Query) (hq : Partitioned q) :
    (∀ fetched : List result, Partitioned (updateQueryMerge q fetched)) ∧
    (∀ id : String, Partitioned (markVisited q id)) ∧
    (∀ ids : List String, Partitioned (markVisitedAll q ids)) ∧
    (∀ ops : List Op, Partitioned (runOps q ops)) ∧
    (∀ (queries : Registry) (id endpoint : String) (q' : Query),
      queries.lookup endpoint = some q →
      (visitedHandler queries id endpoint).registry.lookup endpoint = some q' →
      Partitioned q') ∧
    (∀ (queries : Registry) (endpoint : String) (ids : Option (List String)) (q' : Query),
      queries.lookup endpoint = some q →
      (visitedAllHandler queries endpoint ids).registry.lookup endpoint = some q' →
      Partitioned q') := by
  refine ⟨fun fetched => partitioned_updateQueryMerge q fetched,
    fun id => partitioned_markVisited q id hq,
    fun ids => ?_, fun ops => partitioned_runOps ops q hq, ?_, ?_⟩
  · rw [markVisitedAll_eq_foldl]
    exact partitioned_foldl_markVisited ids q hq
  · intro queries id endpoint q' hlook hq'
    rw [visitedHandler_lookup queries id endpoint q hlook] at hq'
    cases hq'
    split
    · exact hq
    · exact partitioned_markVisited q id hq
  · intro queries endpoint ids q' hlook hq'
    unfold visitedAllHandler at hq'
    by_cases he : endpoint = ""
    · simp only [he, if_true, Outcome.registry] at hq'
      subst he
      rw [hq'] at hlook
      cases hlook
      exact hq
    · cases ids with
      | none =>
        simp only [he, if_false, Outcome.registry] at hq'
        rw [hq'] at hlook
        cases hlook
        exact hq
      | some ids =>
        simp only [he, if_false, hlook, Outcome.registry] at hq'
        rw [Finmap.lookup_insert] at hq'
        cases hq'
        rw [markVisitedAll_eq_foldl]
        exact partitioned_foldl_markVisited ids q hq

/-- Witness for C1: the sample query is partitioned and stays so through a
refresh that returns a visited id again, a single mark and a batch mark. -/
theorem partition_invariant_witness :
    Partitioned sampleQuery ∧
    Partitioned (runOps sampleQuery
      [Op.refresh [rA, rB, rC], Op.mark "B", Op.markAll ["C", "B", "nope"]]) :=
  ⟨by decide, (partition_invariant sampleQuery (by decide)).2.2.2.1 _⟩

/-- C2 (refresh replacement): after the merge of `updateQuery`, looking an id
up in Available gives nothing when the id is a key of Visited, and otherwise the
last fetched result with that id, its thumbnail rewritten from "-I.jpg" to
"-U.jpg" and its other fields untouched; the keys are exactly the fetched ids
that are not visited; Visited, Params and Endpoint are unchanged; and the
previous Available has no influence.  With visited = {A} and a fetch of
A, B, C the new Available is exactly {B, C}. -/
theorem refresh_replacement (q : Query) (fetched : List result) :
    (∀ id : String,
      (updateQueryMerge q fetched).Available.lookup id =
        if id ∈ q.Visited then none
        else ((fetched.filter (fun r => r.Id = id)).getLast?).map
          (fun r => { r with Thumbnail := stringsReplace r.Thumbnail "-I.jpg" "-U.jpg" })) ∧
    (∀ id : String,
      id ∈ (updateQueryMerge q fetched).Available ↔
        id ∉ q.Visited ∧ ∃ r ∈ fetched, r.Id = id) ∧
    (updateQueryMerge q fetched).Visited = q.Visited ∧
    (updateQueryMerge q fetched).Params = q.Params ∧
    (updateQueryMerge q fetched).Endpoint = q.Endpoint ∧
    (∀ previous : GoMap result,
      (updateQueryMerge { q with Available := previous } fetched).Available =
        (updateQueryMerge q fetched).Available) ∧
    (updateQueryMerge sampleQuery [rA, rB, rC]).Available =
      ((∅ : GoMap result).insert "B" { rB with Thumbnail := "http://img/B-U.jpg" }).insert
        "C" rC := by
  refine ⟨fun id => lookup_foldl_mergeStep q.Visited fetched id,
    fun id => mem_updateQueryMerge q fetched id, rfl, rfl, rfl, fun _ => rfl, by decide⟩

/-- C3 (mark moves or does nothing): a `/visited` call with a non-empty id on
a non-empty registered endpoint returns normally, replies with the id and
replaces the registered query by the result of the locked body; every other
endpoint keeps its query.  When the id is a key of Available with result `v`,
that result has the id removed from Available and mapped to the same `v` in
Visited, with every other entry of both maps, the Params and the Endpoint as
they were; when the id is not a key of Available the query and the registry
are unchanged.  With an empty id or an empty endpoint the handler returns at
once and changes nothing. -/
theorem markVisited_moves_or_noop (queries : Registry) (endpoint id : String) (q : Query)
    (hid : id ≠ "") (he : endpoint ≠ "") (hq : queries.lookup endpoint = some q) :
    visitedHandler queries id endpoint =
      .returned (queries.insert endpoint (markVisited q id)) (.text id) ∧
    (visitedHandler queries id endpoint).registry.lookup endpoint =
      some (markVisited q id) ∧
    (∀ other : String, other ≠ endpoint →
      (visitedHandler queries id endpoint).registry.lookup other = queries.lookup other) ∧
    (∀ v : result, q.Available.lookup id = some v →
      id ∉ (markVisited q id).Available ∧
      (markVisited q id).Visited.lookup id = some v ∧
      (∀ k : String, k ≠ id →
        (markVisited q id).Available.lookup k = q.Available.lookup k ∧
        (markVisited q id).Visited.lookup k = q.Visited.lookup k) ∧
      (markVisited q id).Params = q.Params ∧
      (markVisited q id).Endpoint = q.Endpoint) ∧
    (id ∉ q.Available →
      markVisited q id = q ∧ (visitedHandler queries id endpoint).registry = queries) ∧
    (∀ (reg : Registry) (e : String), visitedHandler reg "" e = .returned reg .empty) ∧
    (∀ (reg : Registry) (i : String), visitedHandler reg i "" = .returned reg .empty) := by
  have hrun := visitedHandler_registered queries id endpoint q hid he hq
  refine ⟨hrun, ?_, ?_, ?_, ?_, visitedHandler_blank_id, visitedHandler_blank_endpoint⟩
  · rw [hrun]
    exact Finmap.lookup_insert _
  · intro other hother
    rw [hrun]
    exact Finmap.lookup_insert_of_ne _ hother
  · intro v hv
    rw [markVisited_of_lookup q id v hv]
    refine ⟨Finmap.not_mem_erase_self, Finmap.lookup_insert _, ?_, rfl, rfl⟩
    intro k hk
    exact ⟨Finmap.lookup_erase_ne hk, Finmap.lookup_insert_of_ne _ hk⟩
  · intro hnot
    have hsame := markVisited_of_not_mem q id hnot
    refine ⟨hsame, ?_⟩
    rw [hrun, hsame]
    exact insert_of_lookup queries endpoint q hq

/-- Witness for C3: in the sample registry `B` is available and a `/visited`
call moves it; `A` (already visited) is not available and the call changes
nothing. -/
theorem markVisited_moves_or_noop_witness :
    "B" ≠ "" ∧ "kona" ≠ "" ∧ sampleRegistry.lookup "kona" = some sampleQuery ∧
    sampleQuery.Available.lookup "B" = some rB ∧
    visitedHandler sampleRegistry "B" "kona" =
      .returned (sampleRegistry.insert "kona" (markVisited sampleQuery "B")) (.text "B") ∧
    "B" ∉ (markVisited sampleQuery "B").Available ∧
    (markVisited sampleQuery "B").Visited.lookup "B" = some rB ∧
    "A" ∉ sampleQuery.Available ∧
    (visitedHandler sampleRegistry "A" "kona").registry = sampleRegistry :=
  ⟨by decide, by decide, by decide, by decide,
    (markVisited_moves_or_noop sampleRegistry "kona" "B" sampleQuery
      (by decide) (by decide) (by decide)).1,
    ((markVisited_moves_or_noop sampleRegistry "kona" "B" sampleQuery
      (by decide) (by decide) (by decide)).2.2.2.1 rB (by decide)).1,
    ((markVisited_moves_or_noop sampleRegistry "kona" "B" sampleQuery
      (by decide) (by decide) (by decide)).2.2.2.1 rB (by decide)).2.1,
    by decide,
    ((markVisited_moves_or_noop sampleRegistry "kona" "A" sampleQuery
      (by decide) (by decide) (by decide)).2.2.2.2.1 (by decide)).2⟩

/-- Counterexample to C3 as stated: the empty id is a key of Available of the
registered query, yet `/visited` with that id returns at the guard of line 208
and the entry is still available and not visited; and a query registered under
the empty endpoint name keeps `B` available after `/visited` with id `B`. -/
theorem markVisited_moves_or_noop_counterexample :
    (blankIdRegistry.lookup "kona" = some blankIdQuery ∧
      blankIdQuery.Available.lookup "" = some rBlank ∧
      visitedHandler blankIdRegistry "" "kona" = .returned blankIdRegistry .empty ∧
      (visitedHandler blankIdRegistry "" "kona").registry.lookup "kona" = some blankIdQuery ∧
      "" ∈ blankIdQuery.Available ∧ "" ∉ blankIdQuery.Visited) ∧
    (blankEndpointRegistry.lookup "" = some sampleQuery ∧
      sampleQuery.Available.lookup "B" = some rB ∧
      visitedHandler blankEndpointRegistry "B" "" = .returned blankEndpointRegistry .empty ∧
      "B" ∈ sampleQuery.Available) := by
  decide

/-- C4 (visited monotonicity): in a partitioned state, an id that is a key of
Visited is, after any finite sequence of refreshes, single marks and batch
marks, still a key of Visited with the same result and not a key of Available.
In any state, a refresh leaves no key of Visited in Available, and no operation
removes a key from Visited. -/
theorem visited_monotone (q : Query) (hq : Partitioned q) (id : String)
    (hid : id ∈ q.Visited) (ops : List Op) :
    id ∈ (runOps q ops).Visited ∧
    id ∉ (runOps q ops).Available ∧
    (∀ v : result, q.Visited.lookup id = some v →
      (runOps q ops).Visited.lookup id = some v) ∧
    (∀ (q' : Query) (fetched : List result) (k : String),
      k ∈ q'.Visited → k ∉ (updateQueryMerge q' fetched).Available) ∧
    (∀ (q' : Query) (op : Op) (k : String),
      k ∈ q'.Visited → k ∈ (op.apply q').Visited) := by
  obtain ⟨v, hv⟩ := Finmap.mem_iff.mp hid
  have hlook := lookup_visited_runOps ops q id v hq hv
  have hmem : id ∈ (runOps q ops).Visited := Finmap.mem_of_lookup_eq_some hlook
  refine ⟨hmem, fun hA => partitioned_runOps ops q hq id ⟨hA, hmem⟩, ?_, ?_, ?_⟩
  · intro w hw
    exact lookup_visited_runOps ops q id w hq hw
  · intro q' fetched k hk hA
    exact ((mem_updateQueryMerge q' fetched k).mp hA).1 hk
  · intro q' op k hk
    exact mem_visited_apply q' op k hk

/-- Witness for C4: `A` is visited in the sample query and stays visited and
unavailable although two later refreshes return it again. -/
theorem visited_monotone_witness :
    Partitioned sampleQuery ∧ "A" ∈ sampleQuery.Visited ∧
    "A" ∈ (runOps sampleQuery
      [Op.refresh [rA, rB], Op.mark "B", Op.refresh [rC, rA], Op.markAll ["A", "C"]]).Visited ∧
    "A" ∉ (runOps sampleQuery
      [Op.refresh [rA, rB], Op.mark "B", Op.refresh [rC, rA], Op.markAll ["A", "C"]]).Available :=
  ⟨by decide, by decide,
    (visited_monotone sampleQuery (by decide) "A" (by decide) _).1,
    (visited_monotone sampleQuery (by decide) "A" (by decide) _).2.1⟩

/-- C5 (batch marking is repeated single marking): for a list of ids in which
the empty id does not occur while it is a key of Available (so for every list
of non-empty ids), the registry a `/visitedAll` call leaves is the registry
left by one `/visited` call per id, in order; this holds on every endpoint,
registered or not.  On a non-empty registered endpoint the batch call replaces
the query by the result of its locked loop, which is the locked body of
`/visited` run on each id in order, for every list; and an id of the list that
was available ends up visited and unavailable whatever ids precede it, missing
ones included. -/
theorem batch_eq_repeated_single (queries : Registry) (endpoint : String)
    (ids : List String)
    (hids : ∀ q : Query, queries.lookup endpoint = some q → "" ∈ ids → "" ∉ q.Available) :
    (visitedAllHandler queries endpoint (some ids)).registry =
      ids.foldl (fun reg id => (visitedHandler reg id endpoint).registry) queries ∧
    (∀ q : Query, endpoint ≠ "" → queries.lookup endpoint = some q →
      visitedAllHandler queries endpoint (some ids) =
        .returned (queries.insert endpoint (markVisitedAll q ids))
          (.redirect ("/listing?endpoint=" ++ endpoint))) ∧
    (∀ (q : Query) (anyIds : List String),
      markVisitedAll q anyIds = anyIds.foldl markVisited q ∧
      (∀ id ∈ anyIds, id ∈ q.Available →
        id ∈ (markVisitedAll q anyIds).Visited ∧
        id ∉ (markVisitedAll q anyIds).Available)) := by
  refine ⟨?_, fun q he hq => visitedAllHandler_registered queries endpoint ids q he hq, ?_⟩
  · by_cases he : endpoint = ""
    · rw [foldl_visitedHandler_unchanged ids queries endpoint (Or.inl he)]
      unfold visitedAllHandler
      rw [if_pos he]
      rfl
    · cases hq : queries.lookup endpoint with
      | none =>
        rw [foldl_visitedHandler_unchanged ids queries endpoint (Or.inr hq)]
        unfold visitedAllHandler
        rw [if_neg he]
        simp only [hq]
        rfl
      | some q =>
        rw [visitedAllHandler_registered queries endpoint ids q he hq,
          foldl_visitedHandler ids queries endpoint q he hq (hids q hq),
          markVisitedAll_eq_foldl]
        rfl
  · intro q anyIds
    refine ⟨markVisitedAll_eq_foldl q anyIds, ?_⟩
    intro id hid hA
    rw [markVisitedAll_eq_foldl]
    exact marked_foldl_markVisited anyIds q id hid hA

/-- Witness for C5: on the sample registry a batch with a missing id first, a
repeated id and an empty id (not available there) leaves the registry that the
four single calls leave. -/
theorem batch_eq_repeated_single_witness :
    (∀ q : Query, sampleRegistry.lookup "kona" = some q →
      "" ∈ ["nope", "B", "", "B"] → "" ∉ q.Available) ∧
    (visitedAllHandler sampleRegistry "kona" (some ["nope", "B", "", "B"])).registry =
      ["nope", "B", "", "B"].foldl
        (fun reg id => (visitedHandler reg id "kona").registry) sampleRegistry :=
  ⟨fun q hq _ => by
      have h : sampleRegistry.lookup "kona" = some sampleQuery := by decide
      rw [h] at hq
      cases hq
      decide,
    (batch_eq_repeated_single sampleRegistry "kona" ["nope", "B", "", "B"]
      (fun q hq _ => by
        have h : sampleRegistry.lookup "kona" = some sampleQuery := by decide
        rw [h] at hq
        cases hq
        decide)).1⟩

/-- Counterexample to C5 as stated: the empty id is available and the list is
the one empty id.  The loop of `/visitedAll` has no guard and moves the entry to
Visited; the `/visited` call for the same id returns at the guard of line 208
and leaves the registry as it was, so the two registries differ. -/
theorem batch_eq_repeated_single_counterexample :
    blankIdRegistry.lookup "kona" = some blankIdQuery ∧
    "" ∈ blankIdQuery.Available ∧
    (visitedAllHandler blankIdRegistry "kona" (some [""])).registry.lookup "kona" =
      some { blankIdQuery with
        Available := ∅, Visited := (∅ : GoMap result).insert "" rBlank } ∧
    [""].foldl (fun reg id => (visitedHandler reg id "kona").registry) blankIdRegistry =
      blankIdRegistry ∧
    (visitedAllHandler blankIdRegistry "kona" (some [""])).registry ≠
      [""].foldl (fun reg id => (visitedHandler reg id "kona").registry) blankIdRegistry := by
  decide

/-- C6 (idempotent marking): marking an id twice in a row gives the same state
(Available, Visited, Params, Endpoint) as marking it once; marking has no
effect when the id is not available, in particular when it is unknown or, in a
partitioned state, already visited; and two identical `/visited` calls leave
the registry that one call leaves. -/
theorem markVisited_idempotent (q : Query) (id : String) :
    markVisited (markVisited q id) id = markVisited q id ∧
    (id ∉ q.Available → markVisited q id = q) ∧
    (Partitioned q → id ∈ q.Visited → markVisited q id = q) ∧
    (∀ (queries : Registry) (endpoint : String),
      (visitedHandler (visitedHandler queries id endpoint).registry id endpoint).registry =
        (visitedHandler queries id endpoint).registry) := by
  refine ⟨markVisited_idem q id, markVisited_of_not_mem q id, ?_, ?_⟩
  · intro hq hV
    exact markVisited_of_not_mem q id (fun hA => hq id ⟨hA, hV⟩)
  · intro queries endpoint
    by_cases hg : id = "" ∨ endpoint = ""
    · simp [visitedHandler, hg, Outcome.registry]
    · have hid : id ≠ "" := fun h => hg (Or.inl h)
      have he : endpoint ≠ "" := fun h => hg (Or.inr h)
      cases hq : queries.lookup endpoint with
      | none => simp [visitedHandler, hg, hq, Outcome.registry]
      | some q₀ =>
        rw [visitedHandler_registered queries id endpoint q₀ hid he hq]
        show (visitedHandler (queries.insert endpoint (markVisited q₀ id)) id endpoint).registry
          = queries.insert endpoint (markVisited q₀ id)
        rw [visitedHandler_registered _ id endpoint (markVisited q₀ id) hid he
          (Finmap.lookup_insert _)]
        show (queries.insert endpoint (markVisited q₀ id)).insert endpoint
          (markVisited (markVisited q₀ id) id) = _
        rw [Finmap.insert_insert, markVisited_idem]

/-- Witness for C6: `A` is already visited in the partitioned sample query and
`nope` is unknown; marking either changes nothing. -/
theorem markVisited_idempotent_witness :
    Partitioned sampleQuery ∧ "A" ∈ sampleQuery.Visited ∧
    markVisited sampleQuery "A" = sampleQuery ∧
    "nope" ∉ sampleQuery.Available ∧ markVisited sampleQuery "nope" = sampleQuery :=
  ⟨by decide, by decide,
    (markVisited_idempotent sampleQuery "A").2.2.1 (by decide) (by decide),
    by decide,
    (markVisited_idempotent sampleQuery "nope").2.1 (by decide)⟩


/-! ## Lemmas on decimal printing and Go `int` -/

theorem digitChar_toNat (d : Nat) (hd : d < 10) : (Nat.digitChar d).toNat - 48 = d := by
  interval_cases d <;> rfl

theorem foldl_toDigitsCore (fuel n : Nat) (ds : List Char) (hn : n < fuel) :
    (Nat.toDigitsCore 10 fuel n ds).foldl (fun acc c => 10 * acc + (c.toNat - 48)) 0 =
      ds.foldl (fun acc c => 10 * acc + (c.toNat - 48)) n := by
  induction fuel generalizing n ds with
  | zero => omega
  | succ fuel ih =>
    unfold Nat.toDigitsCore
    simp only []
    by_cases h0 : n / 10 = 0
    · rw [if_pos h0, List.foldl_cons, digitChar_toNat _ (Nat.mod_lt _ (by decide))]
      have : n % 10 = n := Nat.mod_eq_of_lt (by omega)
      rw [this]
      simp
    · rw [if_neg h0, ih (n / 10) _ (by omega), List.foldl_cons,
        digitChar_toNat _ (Nat.mod_lt _ (by decide))]
      have : 10 * (n / 10) + n % 10 = n := Nat.div_add_mod n 10
      rw [this]

theorem parseNat_fmtInt (n : Nat) : parseNat (fmtInt (n : Int)) = n := by
  show (Nat.toDigitsCore 10 (n + 1) n []).foldl _ 0 = n
  rw [foldl_toDigitsCore (n + 1) n [] (Nat.lt_succ_self n)]
  rfl

theorem addInt_of_lt (a b : Nat) (h : a + b < 2 ^ 63) :
    addInt (a : Int) (b : Int) = ((a + b : Nat) : Int) := by
  unfold addInt wrapInt
  have h1 : ((a : Int) + b + 2 ^ 63) % 2 ^ 64 = (a : Int) + b + 2 ^ 63 := by
    apply Int.emod_eq_of_lt <;> omega
  rw [h1]
  push_cast
  ring

theorem requestOffset_insert (query : Values) (n : Nat) :
    requestOffset (query.insert "offset" (fmtInt (n : Int))) = n := by
  unfold requestOffset
  rw [Finmap.lookup_insert]
  exact parseNat_fmtInt n

/-! ## Lemmas on the two loops of meliSearch -/

theorem firstPage_log {σ : Type} (remote : Remote σ) (query : Values) (fuel : Nat) (s : σ)
    (log : List Event) :
    firstPage remote query fuel s log =
      (firstPage remote query fuel s []).map (fun x => (x.1, x.2.1, log ++ x.2.2)) := by
  induction fuel generalizing s log with
  | zero => rfl
  | succ fuel ih =>
    unfold firstPage
    rcases h : remote.get s query with ⟨r, s'⟩
    cases r with
    | transportError =>
      simp only []
      rw [ih s' (log ++ _), ih s' ([] ++ _)]
      cases firstPage remote query fuel s' [] with
      | none => rfl
      | some x => simp [List.append_assoc]
    | response code decoded =>
      simp only []
      by_cases hc : code ≥ 300
      · rw [if_pos hc, if_pos hc, ih s' (log ++ _), ih s' ([] ++ _)]
        cases firstPage remote query fuel s' [] with
        | none => rfl
        | some x => simp [List.append_assoc]
      · rw [if_neg hc, if_neg hc]
        simp

theorem laterPages_acc {σ : Type} (remote : Remote σ) (fuel : Nat) (s : σ) (query : Values)
    (searchResp : ApiResponse) (rs : List result) (log : List Event) :
    laterPages remote fuel s query searchResp rs log =
      (laterPages remote fuel s query searchResp [] []).map
        (fun x => (rs ++ x.1, x.2.1, log ++ x.2.2)) := by
  induction fuel generalizing s query searchResp rs log with
  | zero => rfl
  | succ fuel ih =>
    unfold laterPages
    by_cases hc : addInt searchResp.Paging.Offset searchResp.Paging.Limit <
        searchResp.Paging.Total
    · rw [if_pos hc, if_pos hc]
      simp only []
      rcases h : remote.get s (query.insert "offset"
        (fmtInt (addInt searchResp.Paging.Offset searchResp.Paging.Limit))) with ⟨r, s'⟩
      cases r with
      | transportError =>
        simp only []
        rw [ih s' _ _ rs (log ++ _), ih s' _ _ [] ([] ++ _)]
        cases laterPages remote fuel s' _ searchResp [] [] with
        | none => rfl
        | some x => simp [List.append_assoc]
      | response code decoded =>
        simp only []
        by_cases hs : code ≥ 300
        · rw [if_pos hs, if_pos hs, ih s' _ _ rs (log ++ _), ih s' _ _ [] ([] ++ _)]
          cases laterPages remote fuel s' _ searchResp [] [] with
          | none => rfl
          | some x => simp [List.append_assoc]
        · rw [if_neg hs, if_neg hs, ih s' _ _ (rs ++ _) (log ++ _),
            ih s' _ _ ([] ++ _) ([] ++ _)]
          cases laterPages remote fuel s' _ decoded [] [] with
          | none => rfl
          | some x => simp [List.append_assoc]
    · rw [if_neg hc, if_neg hc]
      simp

theorem firstPage_mono {σ : Type} (remote : Remote σ) (query : Values) (fuel : Nat) (s : σ)
    (log : List Event) (x : ApiResponse × σ × List Event)
    (h : firstPage remote query fuel s log = some x) (n : Nat) :
    firstPage remote query (fuel + n) s log = some x := by
  induction fuel generalizing s log with
  | zero => cases h
  | succ fuel ih =>
    rw [Nat.add_right_comm]
    unfold firstPage at h ⊢
    rcases hg : remote.get s query with ⟨r, s'⟩
    rw [hg] at h
    cases r with
    | transportError => exact ih _ _ h
    | response code decoded =>
      simp only [] at h ⊢
      by_cases hc : code ≥ 300
      · rw [if_pos hc] at h ⊢
        exact ih _ _ h
      · rw [if_neg hc] at h ⊢
        exact h

theorem laterPages_mono {σ : Type} (remote : Remote σ) (fuel : Nat) (s : σ) (query : Values)
    (searchResp : ApiResponse) (rs : List result) (log : List Event)
    (x : List result × σ × List Event)
    (h : laterPages remote fuel s query searchResp rs log = some x) (n : Nat) :
    laterPages remote (fuel + n) s query searchResp rs log = some x := by
  induction fuel generalizing s query searchResp rs log with
  | zero => cases h
  | succ fuel ih =>
    rw [Nat.add_right_comm]
    unfold laterPages at h ⊢
    by_cases hc : addInt searchResp.Paging.Offset searchResp.Paging.Limit <
        searchResp.Paging.Total
    · rw [if_pos hc] at h ⊢
      simp only [] at h ⊢
      rcases hg : remote.get s (query.insert "offset"
        (fmtInt (addInt searchResp.Paging.Offset searchResp.Paging.Limit))) with ⟨r, s'⟩
      rw [hg] at h
      cases r with
      | transportError => exact ih _ _ _ _ _ h
      | response code decoded =>
        simp only [] at h ⊢
        by_cases hs : code ≥ 300
        · rw [if_pos hs] at h ⊢
          exact ih _ _ _ _ _ h
        · rw [if_neg hs] at h ⊢
          exact ih _ _ _ _ _ h
    · rw [if_neg hc] at h ⊢
      exact h

theorem laterPages_insert_offset {σ : Type} (remote : Remote σ) (fuel : Nat) (s : σ)
    (query : Values) (v : String) (searchResp : ApiResponse) (rs : List result)
    (log : List Event) :
    laterPages remote fuel s (query.insert "offset" v) searchResp rs log =
      laterPages remote fuel s query searchResp rs log := by
  cases fuel with
  | zero => rfl
  | succ fuel =>
    unfold laterPages
    simp only [Finmap.insert_insert]

/-! ## meliSearch against the failure-free paged server -/

theorem firstPage_failureFree (respond : Values → ApiResponse) (query : Values) (fuel : Nat)
    (log : List Event) :
    firstPage (failureFree respond) query (fuel + 1) () log =
      some (respond query, (), log ++ [.get query]) := by
  unfold firstPage
  simp [failureFree]

theorem laterLog_insert_offset (query : Values) (v : String) (limit o m : Nat) :
    laterLog (query.insert "offset" v) limit o m = laterLog query limit o m := by
  induction m generalizing o with
  | zero => rfl
  | succ m ih =>
    unfold laterLog
    rw [ih, Finmap.insert_insert]

theorem laterPages_paged (all : List result) (limit : Nat) (hL : 0 < limit)
    (hrange : all.length + limit < 2 ^ 63) (m : Nat) :
    ∀ (o : Nat) (query : Values) (searchResp : ApiResponse) (fuel : Nat),
      o ≤ all.length → (all.length - o - 1) / limit = m →
      searchResp.Paging = { Total := all.length, Offset := o, Limit := limit } →
      m + 1 ≤ fuel →
      laterPages (failureFree (pagedRespond all limit)) fuel () query searchResp [] [] =
        some (all.drop (o + limit), (), laterLog query limit o m) := by
  induction m with
  | zero =>
    intro o query searchResp fuel ho hm hp hfuel
    obtain ⟨fuel, rfl⟩ : ∃ f, fuel = f + 1 := ⟨fuel - 1, by omega⟩
    have hstop : ¬ (o + limit < all.length) := by
      intro hlt
      have : limit ≤ all.length - o - 1 := by omega
      have := Nat.div_pos this hL
      omega
    unfold laterPages
    rw [hp]
    simp only []
    rw [addInt_of_lt o limit (by omega), if_neg (by exact_mod_cast hstop)]
    rw [List.drop_eq_nil_of_le (by omega)]
    rfl
  | succ m ih =>
    intro o query searchResp fuel ho hm hp hfuel
    obtain ⟨fuel, rfl⟩ : ∃ f, fuel = f + 1 := ⟨fuel - 1, by omega⟩
    have hgo : o + limit < all.length := by
      by_contra hge
      have : all.length - o - 1 < limit := by omega
      rw [Nat.div_eq_of_lt this] at hm
      omega
    have hm' : (all.length - (o + limit) - 1) / limit = m := by
      have h1 : all.length - o - 1 = (all.length - (o + limit) - 1) + limit := by omega
      rw [h1, Nat.add_div_right _ hL] at hm
      omega
    unfold laterPages
    rw [hp]
    simp only []
    rw [addInt_of_lt o limit (by omega), if_pos (by exact_mod_cast hgo)]
    have hget : (failureFree (pagedRespond all limit)).get ()
        (query.insert "offset" (fmtInt ((o + limit : Nat) : Int))) =
        (.response 200 (pagedRespond all limit
          (query.insert "offset" (fmtInt ((o + limit : Nat) : Int)))), ()) := rfl
    rw [hget]
    simp only []
    rw [if_neg (by decide), laterPages_acc]
    have hoff := requestOffset_insert query (o + limit)
    rw [ih (o + limit) (query.insert "offset" (fmtInt ((o + limit : Nat) : Int)))
      (pagedRespond all limit (query.insert "offset" (fmtInt ((o + limit : Nat) : Int))))
      fuel (by omega) hm' (by simp only [pagedRespond, hoff]) (by omega)]
    simp only [Option.map_some', pagedRespond, hoff, List.nil_append]
    rw [laterLog_insert_offset]
    have hdrop : List.drop (o + limit + limit) all =
        List.drop limit (List.drop (o + limit) all) := by
      rw [List.drop_drop]
    rw [hdrop, List.take_append_drop]
    rfl

theorem requestsOf_append (a b : List Event) :
    requestsOf (a ++ b) = requestsOf a ++ requestsOf b := by
  induction a with
  | nil => rfl
  | cons e a ih => cases e <;> simp [requestsOf, ih]

theorem retryDelays_append (a b : List Event) :
    retryDelays (a ++ b) = retryDelays a + retryDelays b := by
  simp [retryDelays, List.count_append]

theorem requestsOf_laterLog (query : Values) (limit o m : Nat) :
    requestsOf (laterLog query limit o m) =
      (List.range m).map
        (fun j => query.insert "offset" (fmtInt ((o + (j + 1) * limit : Nat) : Int))) := by
  induction m generalizing o with
  | zero => rfl
  | succ m ih =>
    rw [List.range_succ_eq_map, List.map_cons, List.map_map]
    unfold laterLog
    simp only [requestsOf]
    rw [ih (o + limit)]
    congr 2
    · simp
    · funext j
      simp only [Function.comp]
      rw [show o + limit + (j + 1) * limit = o + (j.succ + 1) * limit by
        rw [Nat.succ_eq_add_one]; ring]

theorem retryDelays_laterLog (query : Values) (limit o m : Nat) :
    retryDelays (laterLog query limit o m) = 0 := by
  induction m generalizing o with
  | zero => rfl
  | succ m ih =>
    unfold laterLog
    have := ih (o + limit)
    simp only [retryDelays] at this ⊢
    simp [List.count_cons, this]

theorem count_sleepPage_laterLog (query : Values) (limit o m : Nat) :
    (laterLog query limit o m).count .sleepPage = m := by
  induction m generalizing o with
  | zero => rfl
  | succ m ih =>
    unfold laterLog
    simp [List.count_cons, ih (o + limit)]

theorem numPages_eq (total limit : Nat) (hL : 0 < limit) :
    numPages total limit = (total - 1) / limit + 1 := by
  unfold numPages
  rcases Nat.eq_zero_or_pos total with h | h
  · subst h
    have : (0 + limit - 1) / limit = 0 := Nat.div_eq_of_lt (by omega)
    rw [this]
    simp
  · have h1 : total + limit - 1 = (total - 1) + limit := by omega
    rw [h1, Nat.add_div_right _ hL]
    exact Nat.max_eq_right (Nat.le_add_left 1 _)

theorem meliSearch_mono {σ : Type} (remote : Remote σ) (fuel : Nat) (s : σ)
    (params : GoMap String) (out : Fetched σ)
    (h : meliSearch remote fuel s params = some out) (n : Nat) :
    meliSearch remote (fuel + n) s params = some out := by
  unfold meliSearch at h ⊢
  simp only [] at h ⊢
  cases h1 : firstPage remote (params.insert "limit" "1000") fuel s [] with
  | none => rw [h1] at h; cases h
  | some x =>
    obtain ⟨searchResp, s', log⟩ := x
    rw [h1] at h
    rw [firstPage_mono remote _ fuel s [] _ h1 n]
    simp only [] at h ⊢
    cases h2 : laterPages remote fuel s' (params.insert "limit" "1000") searchResp
        searchResp.Results log with
    | none => rw [h2] at h; cases h
    | some y =>
      rw [h2] at h
      rw [laterPages_mono remote fuel s' _ searchResp _ log _ h2 n]
      exact h

theorem meliSearch_of_loops {σ : Type} (remote : Remote σ) (fuel : Nat) (s s1 s2 : σ)
    (params : GoMap String) (searchResp : ApiResponse) (log1 log2 : List Event)
    (rs : List result)
    (h1 : firstPage remote (params.insert "limit" "1000") fuel s [] =
      some (searchResp, s1, log1))
    (h2 : laterPages remote fuel s1 (params.insert "limit" "1000") searchResp
      searchResp.Results log1 = some (rs, s2, log2)) :
    meliSearch remote fuel s params =
      some { rs := rs, err := none, server := s2, log := log2 } := by
  unfold meliSearch
  simp only [h1, h2]

theorem loops_of_meliSearch {σ : Type} (remote : Remote σ) (fuel : Nat) (s : σ)
    (params : GoMap String) (out : Fetched σ)
    (h : meliSearch remote fuel s params = some out) :
    ∃ searchResp s1 log1,
      firstPage remote (params.insert "limit" "1000") fuel s [] =
        some (searchResp, s1, log1) ∧
      laterPages remote fuel s1 (params.insert "limit" "1000") searchResp
        searchResp.Results log1 = some (out.rs, out.server, out.log) ∧
      out.err = none := by
  unfold meliSearch at h
  simp only [] at h
  cases h1 : firstPage remote (params.insert "limit" "1000") fuel s [] with
  | none => rw [h1] at h; cases h
  | some x =>
    obtain ⟨searchResp, s1, log1⟩ := x
    rw [h1] at h
    simp only [] at h
    cases h2 : laterPages remote fuel s1 (params.insert "limit" "1000") searchResp
        searchResp.Results log1 with
    | none => rw [h2] at h; cases h
    | some y =>
      obtain ⟨rs, s2, log2⟩ := y
      rw [h2] at h
      cases h
      exact ⟨searchResp, s1, log1, rfl, h2, rfl⟩

theorem meliSearch_paged (all : List result) (limit : Nat) (params : GoMap String)
    (hL : 0 < limit) (hparams : params.lookup "offset" = none)
    (hrange : all.length + limit < 2 ^ 63) (fuel : Nat)
    (hfuel : numPages all.length limit ≤ fuel) :
    meliSearch (failureFree (pagedRespond all limit)) fuel () params =
      some { rs := all, err := none, server := (),
             log := .get (params.insert "limit" "1000") ::
               laterLog (params.insert "limit" "1000") limit 0 ((all.length - 1) / limit) } := by
  rw [numPages_eq _ _ hL] at hfuel
  have hpos : 1 ≤ fuel := le_trans (Nat.le_add_left 1 _) hfuel
  obtain ⟨fuel, rfl⟩ : ∃ f, fuel = f + 1 := ⟨fuel - 1, (Nat.sub_add_cancel hpos).symm⟩
  have hbase : requestOffset (params.insert "limit" "1000") = 0 := by
    unfold requestOffset
    rw [Finmap.lookup_insert_of_ne _ (by decide), hparams]
  have hlater := laterPages_paged all limit hL hrange ((all.length - 1) / limit) 0
      (params.insert "limit" "1000")
      (pagedRespond all limit (params.insert "limit" "1000")) (fuel + 1) (Nat.zero_le _)
      (by rw [Nat.sub_zero]) (by simp only [pagedRespond, hbase]) hfuel
  apply meliSearch_of_loops _ _ _ _ _ _ _ _ _ _
    (firstPage_failureFree (pagedRespond all limit) _ fuel [])
  rw [laterPages_acc, hlater]
  simp only [Option.map_some', pagedRespond, hbase, List.drop_zero, Nat.zero_add,
    List.take_append_drop, List.nil_append, List.singleton_append]


theorem stop_iff (total limit i : Nat) (hL : 0 < limit) :
    i * limit + limit < total ↔ i + 1 < numPages total limit := by
  rw [numPages_eq _ _ hL]
  have hdiv : i + 1 ≤ (total - 1) / limit ↔ (i + 1) * limit ≤ total - 1 :=
    Nat.le_div_iff_mul_le hL
  have hmul : (i + 1) * limit = i * limit + limit := by ring
  rw [hmul] at hdiv
  constructor
  · intro h
    have h1 : i * limit + limit ≤ total - 1 := Nat.le_sub_one_of_lt h
    exact Nat.succ_le_succ (hdiv.mpr h1)
  · intro h
    have h1 : i * limit + limit ≤ total - 1 := hdiv.mp (Nat.le_of_succ_le_succ h)
    have hpos : 0 < i * limit + limit := Nat.add_pos_right _ hL
    have h2 : 0 < total - 1 := lt_of_lt_of_le hpos h1
    have h3 : total - 1 < total := Nat.sub_lt (Nat.lt_of_lt_of_le h2 (Nat.sub_le _ _)) Nat.one_pos
    exact lt_of_le_of_lt h1 h3

/-- C7 (pagination): against the failure-free server that holds `all` and
answers a request at offset `o` with paging {total, o, limit} and the results
at `o .. min (o + limit, total) - 1`, for search parameters that do not carry
an `offset` of their own and `total + limit` within the range of `int`,
`meliSearch` returns for every fuel of at least `numPages total limit` loop
iterations: no error, all the results in order, exactly
`max 1 (ceil (total / limit))` requests at offsets 0, limit, 2 limit, ..., no
retry delay, one half-second delay per later page, and a further page is
requested exactly when `offset + limit < total`. -/
theorem pagination (all : List result) (limit : Nat) (params : GoMap String)
    (hL : 0 < limit) (hparams : params.lookup "offset" = none)
    (hrange : all.length + limit < 2 ^ 63) :
    ∀ fuel : Nat, numPages all.length limit ≤ fuel →
      ∃ out : Fetched Unit,
        meliSearch (failureFree (pagedRespond all limit)) fuel () params = some out ∧
        out.err = none ∧
        out.rs = all ∧
        (requestsOf out.log).length = numPages all.length limit ∧
        (requestsOf out.log).map requestOffset =
          (List.range (numPages all.length limit)).map (fun i => i * limit) ∧
        retryDelays out.log = 0 ∧
        out.log.count .sleepPage = numPages all.length limit - 1 ∧
        (∀ i : Nat, i < numPages all.length limit →
          (i * limit + limit < all.length ↔ i + 1 < numPages all.length limit)) := by
  intro fuel hfuel
  refine ⟨_, meliSearch_paged all limit params hL hparams hrange fuel hfuel, rfl, rfl,
    ?_, ?_, ?_, ?_, fun i _ => stop_iff all.length limit i hL⟩
  · simp only [requestsOf, requestsOf_laterLog, List.length_cons, List.length_map,
      List.length_range, numPages_eq _ _ hL]
  · have hbase : requestOffset (params.insert "limit" "1000") = 0 := by
      unfold requestOffset
      rw [Finmap.lookup_insert_of_ne _ (by decide), hparams]
    simp only [requestsOf, requestsOf_laterLog, List.map_cons, List.map_map, hbase,
      numPages_eq _ _ hL]
    rw [List.range_succ_eq_map, List.map_cons, List.map_map, Nat.zero_mul]
    congr 1
    apply List.map_congr_left
    intro j _
    simp only [Function.comp, requestOffset_insert, Nat.zero_add, Nat.succ_eq_add_one]
  · show retryDelays (Event.get _ :: laterLog _ limit 0 _) = 0
    have := retryDelays_laterLog (params.insert "limit" "1000") limit 0
      ((all.length - 1) / limit)
    simp only [retryDelays] at this ⊢
    rw [List.count_cons, this]
    rfl
  · show (Event.get _ :: laterLog _ limit 0 _).count .sleepPage = _
    rw [List.count_cons, count_sleepPage_laterLog, numPages_eq _ _ hL]
    rfl

/-- Witness for C7: 250 results at 100 per page take exactly 3 requests, at
offsets 0, 100 and 200, and all 250 results come back. -/
theorem pagination_witness :
    0 < 100 ∧ sampleQuery.Params.lookup "offset" = none ∧
    (manyResults 250).length + 100 < 2 ^ 63 ∧ numPages (manyResults 250).length 100 = 3 ∧
    ∃ out : Fetched Unit,
      meliSearch (failureFree (pagedRespond (manyResults 250) 100)) 3 ()
        sampleQuery.Params = some out ∧
      out.err = none ∧
      out.rs = manyResults 250 ∧
      (requestsOf out.log).length = numPages (manyResults 250).length 100 ∧
      (requestsOf out.log).map requestOffset =
        (List.range (numPages (manyResults 250).length 100)).map (fun i => i * 100) ∧
      retryDelays out.log = 0 ∧
      out.log.count .sleepPage = numPages (manyResults 250).length 100 - 1 ∧
      (∀ i : Nat, i < numPages (manyResults 250).length 100 →
        (i * 100 + 100 < (manyResults 250).length ↔
          i + 1 < numPages (manyResults 250).length 100)) :=
  ⟨by decide, by decide, by simp [manyResults], by simp [manyResults, numPages],
    pagination (manyResults 250) 100 sampleQuery.Params (by decide) (by decide)
      (by simp [manyResults]) 3 (by simp [manyResults, numPages])⟩

/-- Counterexample to C7 as stated: with search parameters that already carry
`offset=2`, the server holding five results at two per page (three pages) is
asked for two pages only, at offsets 2 and 4, and three of the five results are
returned, whatever the fuel. -/
theorem pagination_counterexample :
    offsetParams.lookup "offset" = some "2" ∧
    fiveResults.length = 5 ∧ numPages fiveResults.length 2 = 3 ∧
    ∀ fuel : Nat, 2 ≤ fuel →
      ∃ out : Fetched Unit,
        meliSearch (failureFree (pagedRespond fiveResults 2)) fuel () offsetParams =
          some out ∧
        out.rs = [rC, rZ, rA] ∧ (requestsOf out.log).map requestOffset = [2, 4] := by
  refine ⟨by decide, by decide, by decide, ?_⟩
  intro fuel hfuel
  obtain ⟨n, rfl⟩ : ∃ n, fuel = 2 + n := ⟨fuel - 2, by omega⟩
  have h2 : (meliSearch (failureFree (pagedRespond fiveResults 2)) 2 () offsetParams).map
      (fun o => (o.rs, (requestsOf o.log).map requestOffset)) =
      some ([rC, rZ, rA], [2, 4]) := by decide
  cases h : meliSearch (failureFree (pagedRespond fiveResults 2)) 2 () offsetParams with
  | none => rw [h] at h2; cases h2
  | some out =>
    rw [h] at h2
    simp only [Option.map_some', Option.some.injEq, Prod.mk.injEq] at h2
    exact ⟨out, meliSearch_mono _ 2 () offsetParams out h n, h2.1, h2.2⟩


/-! ## meliSearch against the flaky server -/

theorem requestsOf_firstRetries (query : Values) (k : Nat) :
    requestsOf (firstRetries query k) = List.replicate k query := by
  induction k with
  | zero => rfl
  | succ k ih => simp [firstRetries, requestsOf, ih, List.replicate_succ]

theorem requestsOf_laterRetries (query : Values) (k : Nat) :
    requestsOf (laterRetries query k) = List.replicate k query := by
  induction k with
  | zero => rfl
  | succ k ih => simp [laterRetries, requestsOf, ih, List.replicate_succ]

theorem retryDelays_firstRetries (query : Values) (k : Nat) :
    retryDelays (firstRetries query k) = k := by
  induction k with
  | zero => rfl
  | succ k ih =>
    simp only [retryDelays] at ih ⊢
    simp [firstRetries, List.count_cons, ih]

theorem retryDelays_laterRetries (query : Values) (k : Nat) :
    retryDelays (laterRetries query k) = k := by
  induction k with
  | zero => rfl
  | succ k ih =>
    simp only [retryDelays] at ih ⊢
    simp [laterRetries, List.count_cons, ih]

theorem flaky_get_nil (respond : Values → ApiResponse) (target : Values → Bool)
    (query : Values) :
    (flaky respond target).get [] query = (.response 200 (respond query), []) := rfl

theorem flaky_get_other (respond : Values → ApiResponse) (target : Values → Bool)
    (pending : List HttpResult) (query : Values) (h : target query = false) :
    (flaky respond target).get pending query = (.response 200 (respond query), pending) := by
  cases pending with
  | nil => rfl
  | cons f rest => simp [flaky, h]

theorem flaky_get_target (respond : Values → ApiResponse) (target : Values → Bool)
    (f : HttpResult) (rest : List HttpResult) (query : Values) (h : target query = true) :
    (flaky respond target).get (f :: rest) query = (f, rest) := by
  simp [flaky, h]

theorem firstPage_ok {σ : Type} (remote : Remote σ) (query : Values) (fuel : Nat) (s s' : σ)
    (log : List Event) (decoded : ApiResponse)
    (h : remote.get s query = (.response 200 decoded, s')) :
    firstPage remote query (fuel + 1) s log = some (decoded, s', log ++ [.get query]) := by
  unfold firstPage
  rw [h]
  simp only []
  rw [if_neg (by decide)]

theorem firstPage_fail {σ : Type} (remote : Remote σ) (query : Values) (fuel : Nat) (s s' : σ)
    (log : List Event) (f : HttpResult) (hf : f.isFailure = true)
    (h : remote.get s query = (f, s')) :
    firstPage remote query (fuel + 1) s log =
      firstPage remote query fuel s' (log ++ [.get query, .sleepRetry]) := by
  rw [firstPage]
  rw [h]
  cases f with
  | transportError => rfl
  | response code decoded =>
    simp only []
    rw [if_pos (by simpa [HttpResult.isFailure] using hf)]

theorem laterPages_stop {σ : Type} (remote : Remote σ) (fuel : Nat) (s : σ) (query : Values)
    (searchResp : ApiResponse) (rs : List result) (log : List Event)
    (hc : ¬ addInt searchResp.Paging.Offset searchResp.Paging.Limit < searchResp.Paging.Total) :
    laterPages remote (fuel + 1) s query searchResp rs log = some (rs, s, log) := by
  unfold laterPages
  rw [if_neg hc]

theorem laterPages_ok {σ : Type} (remote : Remote σ) (fuel : Nat) (s s' : σ) (query : Values)
    (searchResp decoded : ApiResponse) (rs : List result) (log : List Event)
    (hc : addInt searchResp.Paging.Offset searchResp.Paging.Limit < searchResp.Paging.Total)
    (h : remote.get s (query.insert "offset"
      (fmtInt (addInt searchResp.Paging.Offset searchResp.Paging.Limit))) =
        (.response 200 decoded, s')) :
    laterPages remote (fuel + 1) s query searchResp rs log =
      laterPages remote fuel s'
        (query.insert "offset"
          (fmtInt (addInt searchResp.Paging.Offset searchResp.Paging.Limit)))
        decoded (rs ++ decoded.Results)
        (log ++ [.sleepPage, .get (query.insert "offset"
          (fmtInt (addInt searchResp.Paging.Offset searchResp.Paging.Limit)))]) := by
  rw [laterPages]
  rw [if_pos hc]
  simp only []
  rw [h]
  simp only []
  rw [if_neg (by decide)]

theorem laterPages_fail {σ : Type} (remote : Remote σ) (fuel : Nat) (s s' : σ) (query : Values)
    (searchResp : ApiResponse) (rs : List result) (log : List Event) (f : HttpResult)
    (hf : f.isFailure = true)
    (hc : addInt searchResp.Paging.Offset searchResp.Paging.Limit < searchResp.Paging.Total)
    (h : remote.get s (query.insert "offset"
      (fmtInt (addInt searchResp.Paging.Offset searchResp.Paging.Limit))) = (f, s')) :
    laterPages remote (fuel + 1) s query searchResp rs log =
      laterPages remote fuel s' query searchResp rs
        (log ++ [.sleepPage, .get (query.insert "offset"
          (fmtInt (addInt searchResp.Paging.Offset searchResp.Paging.Limit))),
          .sleepRetry]) := by
  rw [laterPages]
  rw [if_pos hc]
  simp only []
  rw [h]
  cases f with
  | transportError =>
    simp only []
    rw [laterPages_insert_offset]
  | response code decoded =>
    simp only []
    rw [if_pos (by simpa [HttpResult.isFailure] using hf), laterPages_insert_offset]


theorem firstPage_flaky_retry (respond : Values → ApiResponse) (target : Values → Bool)
    (query : Values) (htarget : target query = true) (fuel : Nat) (fs : List HttpResult) :
    ∀ log : List Event, (∀ f ∈ fs, f.isFailure = true) →
      firstPage (flaky respond target) query (fuel + fs.length) fs log =
        firstPage (flaky respond target) query fuel []
          (log ++ firstRetries query fs.length) := by
  induction fs with
  | nil => intro log _; simp [firstRetries]
  | cons f rest ih =>
    intro log hfs
    rw [List.length_cons, ← Nat.add_assoc,
      firstPage_fail _ query _ (f :: rest) rest log f (hfs f (List.mem_cons_self _ _))
        (flaky_get_target respond target f rest query htarget),
      ih _ (fun x hx => hfs x (List.mem_cons_of_mem _ hx))]
    simp [firstRetries, List.append_assoc]

theorem laterPages_flaky_retry (respond : Values → ApiResponse) (target : Values → Bool)
    (query : Values) (searchResp : ApiResponse) (rs : List result)
    (hc : addInt searchResp.Paging.Offset searchResp.Paging.Limit < searchResp.Paging.Total)
    (htarget : target (query.insert "offset"
      (fmtInt (addInt searchResp.Paging.Offset searchResp.Paging.Limit))) = true)
    (fuel : Nat) (fs : List HttpResult) :
    ∀ log : List Event, (∀ f ∈ fs, f.isFailure = true) →
      laterPages (flaky respond target) (fuel + fs.length) fs query searchResp rs log =
        laterPages (flaky respond target) fuel [] query searchResp rs
          (log ++ laterRetries (query.insert "offset"
            (fmtInt (addInt searchResp.Paging.Offset searchResp.Paging.Limit))) fs.length) := by
  induction fs with
  | nil => intro log _; simp [laterRetries]
  | cons f rest ih =>
    intro log hfs
    rw [List.length_cons, ← Nat.add_assoc,
      laterPages_fail _ _ (f :: rest) rest query searchResp rs log f
        (hfs f (List.mem_cons_self _ _)) hc
        (flaky_get_target respond target f rest _ htarget),
      ih _ (fun x hx => hfs x (List.mem_cons_of_mem _ hx))]
    simp [laterRetries, List.append_assoc]

theorem laterPages_flaky_nil (respond : Values → ApiResponse) (target : Values → Bool)
    (fuel : Nat) :
    ∀ (query : Values) (searchResp : ApiResponse) (rs : List result) (log : List Event),
      laterPages (flaky respond target) fuel [] query searchResp rs log =
        (laterPages (failureFree respond) fuel () query searchResp rs log).map
          (fun x => (x.1, [], x.2.2)) := by
  induction fuel with
  | zero => intro _ _ _ _; rfl
  | succ fuel ih =>
    intro query searchResp rs log
    by_cases hc : addInt searchResp.Paging.Offset searchResp.Paging.Limit <
        searchResp.Paging.Total
    · rw [laterPages_ok _ fuel [] [] query searchResp _ rs log hc
          (flaky_get_nil respond target _),
        laterPages_ok (failureFree respond) fuel () () query searchResp _ rs log hc rfl, ih]
    · rw [laterPages_stop _ fuel [] query searchResp rs log hc,
        laterPages_stop _ fuel () query searchResp rs log hc]
      rfl

theorem retryDelays_failureFree (respond : Values → ApiResponse) (fuel : Nat) :
    ∀ (query : Values) (searchResp : ApiResponse) (rs : List result) (log : List Event)
      (x : List result × Unit × List Event),
      laterPages (failureFree respond) fuel () query searchResp rs log = some x →
      retryDelays x.2.2 = retryDelays log := by
  induction fuel with
  | zero => intro _ _ _ _ x h; cases h
  | succ fuel ih =>
    intro query searchResp rs log x h
    by_cases hc : addInt searchResp.Paging.Offset searchResp.Paging.Limit <
        searchResp.Paging.Total
    · rw [laterPages_ok (failureFree respond) fuel () () query searchResp _ rs log hc rfl] at h
      rw [ih _ _ _ _ x h, retryDelays_append]
      rfl
    · rw [laterPages_stop _ fuel () query searchResp rs log hc] at h
      cases h
      rfl

theorem repeatFirst_split (target : Values → Bool) (k : Nat) (l : List Values)
    (h : ∃ q ∈ l, target q = true) :
    ∃ pre qt post, l = pre ++ qt :: post ∧ target qt = true ∧
      (∀ x ∈ pre, target x = false) ∧
      repeatFirst target k l = pre ++ List.replicate (k + 1) qt ++ post := by
  induction l with
  | nil => obtain ⟨q, hq, _⟩ := h; cases hq
  | cons a l ih =>
    by_cases ha : target a = true
    · refine ⟨[], a, l, rfl, ha, fun x hx => (by cases hx), ?_⟩
      simp [repeatFirst, ha]
    · have ha' : target a = false := by simpa using ha
      obtain ⟨q, hq, hqt⟩ := h
      have hq' : q ∈ l := by
        rcases List.mem_cons.mp hq with h1 | h1
        · subst h1; rw [hqt] at ha'; cases ha'
        · exact h1
      obtain ⟨pre, qt, post, hl, hqt', hpre, hrep⟩ := ih ⟨q, hq', hqt⟩
      refine ⟨a :: pre, qt, post, by rw [hl]; rfl, hqt', ?_, ?_⟩
      · intro x hx
        rcases List.mem_cons.mp hx with h1 | h1
        · subst h1; exact ha'
        · exact hpre x h1
      · simp [repeatFirst, ha', hrep]


theorem laterPages_flaky (respond : Values → ApiResponse) (target : Values → Bool)
    (fuel : Nat) :
    ∀ (query : Values) (searchResp : ApiResponse) (more : List result) (evs : List Event),
      laterPages (failureFree respond) fuel () query searchResp [] [] = some (more, (), evs) →
      ∀ fs : List HttpResult, (∀ f ∈ fs, f.isFailure = true) →
      ∃ evs' : List Event,
        laterPages (flaky respond target) (fuel + fs.length) fs query searchResp [] [] =
          some (more, (if (requestsOf evs).any target then [] else fs), evs') ∧
        requestsOf evs' = repeatFirst target fs.length (requestsOf evs) ∧
        retryDelays evs' = if (requestsOf evs).any target then fs.length else 0 := by
  induction fuel with
  | zero => intro _ _ _ _ h; cases h
  | succ fuel ih =>
    intro query searchResp more evs h fs hfs
    by_cases hc : addInt searchResp.Paging.Offset searchResp.Paging.Limit <
        searchResp.Paging.Total
    · have hbase := h
      rw [laterPages_ok (failureFree respond) fuel () () query searchResp _ [] [] hc rfl,
        laterPages_acc] at h
      obtain ⟨⟨m1, u, e1⟩, h1, h2⟩ := Option.map_eq_some'.mp h
      cases u
      simp only [List.nil_append, Prod.mk.injEq, true_and] at h2
      obtain ⟨hmore, hevs⟩ := h2
      have hreq : requestsOf evs =
          query.insert "offset"
            (fmtInt (addInt searchResp.Paging.Offset searchResp.Paging.Limit)) ::
            requestsOf e1 := by
        rw [← hevs]; rfl
      by_cases ht : target (query.insert "offset"
          (fmtInt (addInt searchResp.Paging.Offset searchResp.Paging.Limit))) = true
      · have hany : (requestsOf evs).any target = true := by
          rw [hreq, List.any_cons, ht]; rfl
        refine ⟨laterRetries (query.insert "offset"
          (fmtInt (addInt searchResp.Paging.Offset searchResp.Paging.Limit))) fs.length ++ evs,
          ?_, ?_, ?_⟩
        · rw [laterPages_flaky_retry respond target query searchResp [] hc ht (fuel + 1) fs []
            hfs, laterPages_flaky_nil, laterPages_acc, hbase, hany]
          simp
        · rw [requestsOf_append, requestsOf_laterRetries, hreq]
          simp only [repeatFirst, ht, if_true]
          rw [List.replicate_succ', List.append_assoc]
          rfl
        · rw [retryDelays_append, retryDelays_laterRetries,
            retryDelays_failureFree respond (fuel + 1) query searchResp [] [] _ hbase, hany]
          rfl
      · have ht' : target (query.insert "offset"
            (fmtInt (addInt searchResp.Paging.Offset searchResp.Paging.Limit))) = false := by
          simpa using ht
        have hany : (requestsOf evs).any target = (requestsOf e1).any target := by
          rw [hreq, List.any_cons, ht']; rfl
        obtain ⟨e1', hrun, hreq', hdel⟩ := ih _ _ m1 e1 h1 fs hfs
        refine ⟨[.sleepPage, .get (query.insert "offset"
          (fmtInt (addInt searchResp.Paging.Offset searchResp.Paging.Limit)))] ++ e1',
          ?_, ?_, ?_⟩
        · rw [Nat.add_right_comm,
            laterPages_ok _ (fuel + fs.length) fs fs query searchResp _ [] [] hc
              (flaky_get_other respond target fs _ ht'),
            laterPages_acc, hrun, hany, ← hmore]
          simp
        · rw [requestsOf_append, hreq', hreq]
          simp only [repeatFirst, ht']
          rfl
        · rw [retryDelays_append, hdel, hany]
          simp [retryDelays]
    · rw [laterPages_stop _ fuel () query searchResp [] [] hc] at h
      cases h
      refine ⟨[], ?_, rfl, rfl⟩
      rw [Nat.add_right_comm, laterPages_stop _ _ fs query searchResp [] [] hc]
      rfl

/-- C8 (retry recovery): let `meliSearch` return `out₀` against a failure-free
server, and let the first request selected by `target` — the first page or a
later one — be one of its requests.  Against the server that answers that
request with the given failures (each a transport error or a status code of
300 or more) before answering it properly, `meliSearch` returns for every
large enough fuel, with no error and the same results; it issues the failing
request once per failure and once more, every other request once and in the
same order; and it sleeps the 5-second retry delay exactly once per failure,
while the failure-free run has none. -/
theorem retry_recovery (respond : Values → ApiResponse) (target : Values → Bool)
    (failures : List HttpResult) (params : GoMap String) (fuel₀ : Nat) (out₀ : Fetched Unit)
    (hfail : ∀ f ∈ failures, f.isFailure = true)
    (hbase : meliSearch (failureFree respond) fuel₀ () params = some out₀)
    (hreq : ∃ q ∈ requestsOf out₀.log, target q = true) :
    ∀ fuel : Nat, fuel₀ + failures.length ≤ fuel →
      ∃ out : Fetched (List HttpResult),
        meliSearch (flaky respond target) fuel failures params = some out ∧
        out.err = none ∧
        out.rs = out₀.rs ∧
        out.server = [] ∧
        retryDelays out.log = failures.length ∧
        retryDelays out₀.log = 0 ∧
        ∃ pre qt post,
          requestsOf out₀.log = pre ++ qt :: post ∧
          target qt = true ∧ (∀ x ∈ pre, target x = false) ∧
          requestsOf out.log = pre ++ List.replicate (failures.length + 1) qt ++ post := by
  intro fuel hfuel
  obtain ⟨n, rfl⟩ : ∃ n, fuel = fuel₀ + failures.length + n := ⟨_, (Nat.add_sub_cancel' hfuel).symm⟩
  obtain ⟨searchResp, s1, log1, h1, h2, _⟩ := loops_of_meliSearch _ _ _ _ _ hbase
  cases fuel₀ with
  | zero => cases h1
  | succ f =>
    rw [firstPage_failureFree] at h1
    cases h1
    have h2' := h2
    rw [laterPages_acc] at h2'
    obtain ⟨⟨m1, u, e1⟩, hrun, hshape⟩ := Option.map_eq_some'.mp h2'
    cases u
    simp only [List.nil_append, Prod.mk.injEq] at hshape
    obtain ⟨hrs, _, hlog⟩ := hshape
    have hreq0 : requestsOf out₀.log = params.insert "limit" "1000" :: requestsOf e1 := by
      rw [← hlog]; rfl
    have hdel0 : retryDelays out₀.log = 0 :=
      retryDelays_failureFree respond (f + 1) _ _ _ _ _ h2
    have hdel1 : retryDelays e1 = 0 :=
      retryDelays_failureFree respond (f + 1) _ _ _ _ _ hrun
    by_cases ht : target (params.insert "limit" "1000") = true
    · have hfirst : firstPage (flaky respond target) (params.insert "limit" "1000")
          (f + 1 + failures.length + n) failures [] =
          some (respond (params.insert "limit" "1000"), [],
            firstRetries (params.insert "limit" "1000") failures.length ++
              [.get (params.insert "limit" "1000")]) := by
        have h0 : firstPage (flaky respond target) (params.insert "limit" "1000")
            (0 + 1 + failures.length) failures [] =
            some (respond (params.insert "limit" "1000"), [],
              [] ++ firstRetries (params.insert "limit" "1000") failures.length ++
                [.get (params.insert "limit" "1000")]) :=
          (firstPage_flaky_retry respond target _ ht (0 + 1) failures [] hfail).trans
            (firstPage_ok _ _ 0 [] [] _ _ (flaky_get_nil respond target _))
        have := firstPage_mono _ _ _ _ _ _ h0 (f + n)
        rw [show 0 + 1 + failures.length + (f + n) = f + 1 + failures.length + n by omega]
          at this
        simpa using this
      have hlater : laterPages (flaky respond target) (f + 1 + failures.length + n) []
          (params.insert "limit" "1000") (respond (params.insert "limit" "1000"))
          (respond (params.insert "limit" "1000")).Results
          (firstRetries (params.insert "limit" "1000") failures.length ++
              [.get (params.insert "limit" "1000")]) =
          some ((respond (params.insert "limit" "1000")).Results ++ m1, [],
            (firstRetries (params.insert "limit" "1000") failures.length ++
              [.get (params.insert "limit" "1000")]) ++ e1) := by
        have h0 : laterPages (flaky respond target) (f + 1) []
            (params.insert "limit" "1000") (respond (params.insert "limit" "1000"))
            (respond (params.insert "limit" "1000")).Results
            (firstRetries (params.insert "limit" "1000") failures.length ++
              [.get (params.insert "limit" "1000")]) =
            some ((respond (params.insert "limit" "1000")).Results ++ m1, [],
              (firstRetries (params.insert "limit" "1000") failures.length ++
                [.get (params.insert "limit" "1000")]) ++ e1) := by
          rw [laterPages_flaky_nil, laterPages_acc, hrun]
          rfl
        have := laterPages_mono _ _ _ _ _ _ _ _ h0 (failures.length + n)
        rw [← Nat.add_assoc] at this
        exact this
      refine ⟨_, meliSearch_of_loops _ _ _ _ _ _ _ _ _ _ hfirst hlater, rfl, hrs, rfl, ?_,
        hdel0, [], params.insert "limit" "1000", requestsOf e1, hreq0, ht,
        fun x hx => (by cases hx), ?_⟩
      · show retryDelays (_ ++ _ ++ e1) = _
        rw [retryDelays_append, retryDelays_append, retryDelays_firstRetries, hdel1]
        rfl
      · show requestsOf (_ ++ _ ++ e1) = _
        rw [requestsOf_append, requestsOf_append, requestsOf_firstRetries,
          List.replicate_succ']
        rfl
    · have ht' : target (params.insert "limit" "1000") = false := by simpa using ht
      have hreq1 : ∃ q ∈ requestsOf e1, target q = true := by
        obtain ⟨q, hq, hqt⟩ := hreq
        rw [hreq0] at hq
        rcases List.mem_cons.mp hq with h | h
        · subst h; rw [hqt] at ht'; cases ht'
        · exact ⟨q, h, hqt⟩
      have hany : (requestsOf e1).any target = true := by
        obtain ⟨q, hq, hqt⟩ := hreq1
        exact List.any_eq_true.mpr ⟨q, hq, hqt⟩
      obtain ⟨e1', hrun', hreq', hdel'⟩ :=
        laterPages_flaky respond target (f + 1) _ _ m1 e1 hrun failures hfail
      rw [hany] at hrun' hdel'
      simp only [if_true] at hrun' hdel'
      have hfirst : firstPage (flaky respond target) (params.insert "limit" "1000")
          (f + 1 + failures.length + n) failures [] =
          some (respond (params.insert "limit" "1000"), failures,
            [.get (params.insert "limit" "1000")]) := by
        have h0 := firstPage_ok (flaky respond target) (params.insert "limit" "1000") 0
          failures failures [] _ (flaky_get_other respond target failures _ ht')
        have := firstPage_mono _ _ _ _ _ _ h0 (f + failures.length + n)
        rw [show 0 + 1 + (f + failures.length + n) = f + 1 + failures.length + n by omega]
          at this
        simpa using this
      have hlater : laterPages (flaky respond target) (f + 1 + failures.length + n) failures
          (params.insert "limit" "1000") (respond (params.insert "limit" "1000"))
          (respond (params.insert "limit" "1000")).Results
          [.get (params.insert "limit" "1000")] =
          some ((respond (params.insert "limit" "1000")).Results ++ m1, [],
            [.get (params.insert "limit" "1000")] ++ e1') := by
        have h0 : laterPages (flaky respond target) (f + 1 + failures.length) failures
            (params.insert "limit" "1000") (respond (params.insert "limit" "1000"))
            (respond (params.insert "limit" "1000")).Results
            [.get (params.insert "limit" "1000")] =
            some ((respond (params.insert "limit" "1000")).Results ++ m1, [],
              [.get (params.insert "limit" "1000")] ++ e1') := by
          rw [laterPages_acc, hrun']
          rfl
        exact laterPages_mono _ _ _ _ _ _ _ _ h0 n
      obtain ⟨pre, qt, post, hsplit, hqt, hpre, hrep⟩ :=
        repeatFirst_split target failures.length (requestsOf e1) hreq1
      refine ⟨_, meliSearch_of_loops _ _ _ _ _ _ _ _ _ _ hfirst hlater, rfl, hrs, rfl, ?_,
        hdel0, params.insert "limit" "1000" :: pre, qt, post, ?_, hqt, ?_, ?_⟩
      · show retryDelays (_ ++ e1') = _
        rw [retryDelays_append, hdel']
        simp [retryDelays]
      · rw [hreq0, hsplit]
        rfl
      · intro x hx
        rcases List.mem_cons.mp hx with h | h
        · subst h; exact ht'
        · exact hpre x h
      · show requestsOf (_ ++ e1') = _
        rw [requestsOf_append, hreq', hrep]
        rfl


/-- Witness for C8: the server with five results at two per page fails twice on
the page at offset 2 (a later page), or twice on the page at offset 0 (the
first page); in both cases all five results come back after exactly 2 retry
delays. -/
theorem retry_recovery_witness :
    (∀ f ∈ twoFailures, f.isFailure = true) ∧
    (∃ out₀ : Fetched Unit,
      meliSearch (failureFree (pagedRespond fiveResults 2)) 3 () sampleQuery.Params =
        some out₀ ∧
      out₀.rs = fiveResults ∧
      (∃ q ∈ requestsOf out₀.log, atOffset 2 q = true) ∧
      (∃ q ∈ requestsOf out₀.log, atOffset 0 q = true) ∧
      (∃ out : Fetched (List HttpResult),
        meliSearch (flaky (pagedRespond fiveResults 2) (atOffset 2)) 5 twoFailures
          sampleQuery.Params = some out ∧
        out.err = none ∧ out.rs = out₀.rs ∧ out.server = [] ∧
        retryDelays out.log = twoFailures.length ∧ retryDelays out₀.log = 0 ∧
        ∃ pre qt post,
          requestsOf out₀.log = pre ++ qt :: post ∧
          atOffset 2 qt = true ∧ (∀ x ∈ pre, atOffset 2 x = false) ∧
          requestsOf out.log = pre ++ List.replicate (twoFailures.length + 1) qt ++ post) ∧
      (∃ out : Fetched (List HttpResult),
        meliSearch (flaky (pagedRespond fiveResults 2) (atOffset 0)) 5 twoFailures
          sampleQuery.Params = some out ∧
        out.err = none ∧ out.rs = out₀.rs ∧ out.server = [] ∧
        retryDelays out.log = twoFailures.length ∧ retryDelays out₀.log = 0 ∧
        ∃ pre qt post,
          requestsOf out₀.log = pre ++ qt :: post ∧
          atOffset 0 qt = true ∧ (∀ x ∈ pre, atOffset 0 x = false) ∧
          requestsOf out.log = pre ++ List.replicate (twoFailures.length + 1) qt ++ post)) :=
  ⟨by decide,
    _,
    meliSearch_paged fiveResults 2 sampleQuery.Params (by decide) (by decide) (by decide) 3
      (by decide),
    rfl, by decide, by decide,
    retry_recovery (pagedRespond fiveResults 2) (atOffset 2) twoFailures sampleQuery.Params 3 _
      (by decide)
      (meliSearch_paged fiveResults 2 sampleQuery.Params (by decide) (by decide) (by decide) 3
        (by decide))
      (by decide) 5 (by decide),
    retry_recovery (pagedRespond fiveResults 2) (atOffset 0) twoFailures sampleQuery.Params 3 _
      (by decide)
      (meliSearch_paged fiveResults 2 sampleQuery.Params (by decide) (by decide) (by decide) 3
        (by decide))
      (by decide) 5 (by decide)⟩

/-! ## The handlers on the listing cap and on unknown endpoints -/

theorem lookup_toMap_append (l : List (String × result)) (e : String × result) (k : String) :
    (toMap (l ++ [e])).lookup k = if k = e.1 then some e.2 else (toMap l).lookup k := by
  unfold toMap
  rw [List.foldl_append, List.foldl_cons, List.foldl_nil]
  by_cases hk : k = e.1
  · subst hk
    rw [Finmap.lookup_insert, if_pos rfl]
  · rw [Finmap.lookup_insert_of_ne _ hk, if_neg hk]

theorem enumerates_toMap (l : List (String × result)) (h : (l.map Prod.fst).Nodup) :
    Enumerates l (toMap l) := by
  refine ⟨h, ?_⟩
  induction l using List.reverseRecOn with
  | nil => intro k v; simp [toMap]
  | append_singleton l e ih =>
    intro k v
    rw [List.map_append, List.nodup_append] at h
    obtain ⟨hl, _, hdisj⟩ := h
    have hnot : e.1 ∉ l.map Prod.fst := fun hmem =>
      hdisj hmem (by simp)
    rw [lookup_toMap_append, List.mem_append, List.mem_singleton]
    by_cases hk : k = e.1
    · subst hk
      rw [if_pos rfl]
      constructor
      · rintro (hmem | heq)
        · exact absurd (List.mem_map_of_mem Prod.fst hmem) hnot
        · rw [← heq]
      · intro hv
        right
        cases hv
        rfl
    · rw [if_neg hk, ← ih hl k v]
      constructor
      · rintro (hmem | heq)
        · exact hmem
        · exact absurd (congrArg Prod.fst heq) hk
      · exact Or.inl


theorem listingLoop_eq_foldl (l : List (String × result)) :
    ∀ (i : Nat) (acc : GoMap result), l.length + i ≤ 101 →
      listingLoop l i acc = l.foldl (fun m e => m.insert e.1 e.2) acc := by
  induction l with
  | nil => intro i acc _; rfl
  | cons e l ih =>
    intro i acc h
    obtain ⟨k, v⟩ := e
    rw [List.length_cons] at h
    unfold listingLoop
    simp only []
    by_cases hi : i + 1 > 100
    · have hl : l = [] := List.length_eq_zero.mp (by omega)
      subst hl
      rw [if_pos hi]
      rfl
    · rw [if_neg hi, ih (i + 1) _ (by omega)]
      rfl

set_option maxRecDepth 100000 in
/-- C9 (code defect): with 101 available results, enumerated in any order
`range` may yield, the `/listing` handler copies all 101 of them into the page
it renders: the test `i > 100` follows the increment, so the loop stops after
the 101st entry, not the 100th. -/
theorem listing_copies_101_entries :
    Enumerates (entriesOf (manyResults 101)) bigQuery.Available ∧
    listingHandler (fun _ => entriesOf (manyResults 101)) bigRegistry "kona" =
      .returned bigRegistry
        (.page { Endpoint := "kona", Params := ∅,
                 Available := bigQuery.Available, Visited := ∅ }) ∧
    bigQuery.Available.keys.card = 101 := by
  refine ⟨enumerates_toMap _ (by decide), ?_, by decide⟩
  have hlook : bigRegistry.lookup "kona" = some bigQuery := Finmap.lookup_insert _
  unfold listingHandler
  rw [if_neg (by decide), hlook]
  simp only []
  rw [listingLoop_eq_foldl _ 0 ∅ (by simp [entriesOf, manyResults])]
  rfl

/-- C10 (code defect): on an endpoint that is not registered, `/visited`,
`/visitedAll` and `/listing` each index `queries` and call `Lock` or `RLock`
through the nil pointer they get: the call panics instead of answering "not
found".  The registry is left as it was. -/
theorem unknown_endpoint_nil_dereference :
    sampleRegistry.lookup "bikes" = none ∧
    visitedHandler sampleRegistry "B" "bikes" = .nilDeref sampleRegistry ∧
    visitedAllHandler sampleRegistry "bikes" (some ["B"]) = .nilDeref sampleRegistry ∧
    (∀ order : GoMap result → List (String × result),
      listingHandler order sampleRegistry "bikes" = .nilDeref sampleRegistry) := by
  have hlook : sampleRegistry.lookup "bikes" = none := by decide
  refine ⟨hlook, ?_, ?_, ?_⟩
  · unfold visitedHandler
    rw [if_neg (by decide), hlook]
  · unfold visitedAllHandler
    rw [if_neg (by decide)]
    simp only [hlook]
  · intro order
    unfold listingHandler
    rw [if_neg (by decide), hlook]


end MeliSearch
